import Mathlib

/-!
Shallow embedding of the trade-economics and ledger engine of the
stock-options tracker (src/app.py, src/db_helper.py).

Modelling conventions:
* Monetary and per-share amounts are rationals (`ℚ`); the source computes
  with Python floats and `Decimal`, and every claim under study is about
  exact decimal arithmetic, which `ℚ` represents exactly.
* Dates are day numbers (`ℕ`); the source stores ISO `YYYY-MM-DD` strings,
  whose lexicographic order coincides with chronological order, and only
  compares or offsets them.  Date formatting inside human-readable
  descriptions is modelled by `toString` of the day number; the engine only
  ever inspects description prefixes (`LIKE 'ASSIGNED%'`,
  `LIKE 'SELL -1 DIAGONAL%'`), which are preserved.
* A SQLite row id / autoincrement id is a `ℕ` drawn from a single
  monotone counter `nextId` in the state; only freshness and relative
  order of ids matter to the engine.
* Ticker rows are keyed by their upper-cased symbol (`create_or_get_ticker`
  maintains a case-insensitive bijection between symbols and ids, and the
  symbol is stored upper-cased), so the model uses the upper-cased symbol
  itself as the ticker id.
* SQL tables are association lists in insertion (rowid) order; `INSERT`
  appends, `DELETE ... WHERE` filters, `UPDATE ... WHERE` maps.
-/

namespace StockTracker

/-- Python's `str.upper`, character-wise on the code points. -/
def py_upper (s : String) : String := ⟨s.data.map Char.toUpper⟩

/-- `needle.leadsWith hay`: is `n` a prefix of `h`?  Models Python's
`str.startswith` and SQL `LIKE 'needle%'`, working on character lists. -/
def leadsWith : List Char → List Char → Bool
  | [], _ => true
  | _ :: _, [] => false
  | a :: as, b :: bs => a = b && leadsWith as bs

/-- `py_startswith s p`: Python's `s.startswith(p)` / SQL `s LIKE 'p%'`. -/
def py_startswith (s p : String) : Bool := leadsWith p.data s.data

/-- Is `needle` a contiguous substring of `hay`?  Models Python's
`needle in hay` on strings. -/
def infixOf (needle : List Char) : List Char → Bool
  | [] => leadsWith needle []
  | c :: t => leadsWith needle (c :: t) || infixOf needle t

/-- Python's `needle in hay` for strings. -/
def py_in (needle hay : String) : Bool := infixOf needle.data hay.data

/-- `round_standard` (src/app.py lines 70-76): round to `decimals` decimal
places, ties away from zero (`decimal.ROUND_HALF_UP` on the exact decimal
value of the input). -/
def round_standard (value : ℚ) (decimals : ℕ) : ℚ :=
  let m : ℚ := 10 ^ decimals
  if 0 ≤ value then (⌊value * m + 1 / 2⌋ : ℚ) / m
  else -((⌊-value * m + 1 / 2⌋ : ℚ) / m)

/-- Python's builtin `round(x, d)`: round half to even (banker's rounding)
on the exact value. -/
def py_round (value : ℚ) (decimals : ℕ) : ℚ :=
  let m : ℚ := 10 ^ decimals
  let y := value * m
  if y - ⌊y⌋ = 1 / 2 then
    (if 2 ∣ ⌊y⌋ then (⌊y⌋ : ℚ) / m else (⌊y⌋ + 1 : ℚ) / m)
  else (⌊y + 1 / 2⌋ : ℚ) / m

/-- One row of the `commissions` table. -/
structure CommissionRate where
  accountId : ℕ
  rate : ℚ
  effectiveDate : ℕ
  deriving Repr, DecidableEq

/-- One row of the `trade_types` table (columns the engine reads; the
descriptive columns `description`, `category`, `is_credit`,
`requires_expiration`, `requires_strike`, `requires_shares` are never
consulted by the modelled code paths and are omitted). -/
structure TradeTypeRow where
  id : ℕ
  typeName : String
  requiresContracts : Bool
  deriving Repr, DecidableEq

/-- The four default trade types seeded by `init_db`
(src/app.py lines 525-533): `requires_contracts` is 1 for the two options
types and 0 for the two stock types. -/
def seededTradeTypes : List TradeTypeRow :=
  [⟨1, "ROCT PUT", true⟩, ⟨2, "ROCT CALL", true⟩,
   ⟨3, "BTO", false⟩, ⟨4, "STC", false⟩]

/-- One row of the `trades` table (columns the engine reads or writes). -/
structure Trade where
  id : ℕ
  accountId : ℕ
  tickerId : String
  tradeDate : ℕ
  expirationDate : ℕ
  numContracts : ℕ
  creditDebit : ℚ
  totalPremium : ℚ
  daysToExpiration : ℤ
  currentPrice : ℚ
  strikePrice : ℚ
  tradeStatus : String
  tradeType : String
  pricePerShare : ℚ
  totalAmount : ℚ
  commissionPerShare : ℚ
  marginCapital : Option ℚ
  netCreditPerShare : ℚ
  riskCapitalPerShare : Option ℚ
  marginPercent : Option ℚ
  arorc : Option ℚ
  tradeTypeId : Option ℕ
  tradeParentId : Option ℕ
  deriving Repr, DecidableEq

/-- One row of the `cost_basis` table. -/
structure CostBasisEntry where
  rowid : ℕ
  accountId : ℕ
  tickerId : String
  tradeId : Option ℕ
  cashFlowId : Option ℕ
  transactionDate : ℕ
  description : String
  shares : ℤ
  costPerShare : ℚ
  totalAmount : ℚ
  runningBasis : ℚ
  runningShares : ℤ
  basisPerShare : ℚ
  deriving Repr, DecidableEq

/-- One row of the `cash_flows` table. -/
structure CashFlowEntry where
  rowid : ℕ
  accountId : ℕ
  transactionDate : ℕ
  transactionType : String
  amount : ℚ
  description : String
  tradeId : Option ℕ
  tickerId : Option String
  deriving Repr, DecidableEq

/-- The persistent state the engine manipulates: the four related tables,
the trade-type vocabulary, the status-history log, and the id counter. -/
structure DBState where
  trades : List Trade
  costBasis : List CostBasisEntry
  cashFlows : List CashFlowEntry
  commissions : List CommissionRate
  tradeTypes : List TradeTypeRow
  statusHistory : List (ℕ × String × String)
  nextId : ℕ
  deriving Repr, DecidableEq

/-- The commission row selected by
`SELECT commission_rate FROM commissions WHERE account_id = ? AND
effective_date <= ? ORDER BY effective_date DESC LIMIT 1`
(src/db_helper.py lines 239-245): among the rows for the account with
effective date ≤ the given date, one with the maximal effective date. -/
def pickBetter (c : CommissionRate) : Option CommissionRate →
    Option CommissionRate
  | none => some c
  | some b => if b.effectiveDate ≤ c.effectiveDate then some c else some b

def bestCommission (cs : List CommissionRate) (accountId : ℕ) (d : ℕ) :
    Option CommissionRate :=
  match cs with
  | [] => none
  | c :: rest =>
    if c.accountId = accountId ∧ c.effectiveDate ≤ d then
      pickBetter c (bestCommission rest accountId d)
    else bestCommission rest accountId d

/-- `DatabaseHelper.get_commission_rate` (src/db_helper.py lines 228-247):
the rate in effect for the account on the date, `0.0` when none exists. -/
def get_commission_rate (cs : List CommissionRate) (accountId : ℕ) (d : ℕ) : ℚ :=
  match bestCommission cs accountId d with
  | some c => c.rate
  | none => 0

/-- The PUT-style classification used throughout src/app.py, e.g. line 1432:
`'ROCT PUT' in trade_type or 'RULE ONE PUT' in trade_type or
('PUT' in trade_type and ('ROCT' in trade_type or 'RULE ONE' in trade_type))`. -/
def isPutStyle (tradeType : String) : Bool :=
  py_in "ROCT PUT" tradeType || py_in "RULE ONE PUT" tradeType ||
    (py_in "PUT" tradeType && (py_in "ROCT" tradeType || py_in "RULE ONE" tradeType))

/-- The derived per-trade metric fields. -/
structure DerivedFields where
  netCreditPerShare : ℚ
  riskCapitalPerShare : Option ℚ
  marginCapital : Option ℚ
  arorc : Option ℚ
  deriving Repr, DecidableEq

/-- The derived-metric block shared verbatim by `add_trade`
(src/app.py lines 1426-1465) and `update_trades_for_commission`
(lines 1019-1051): net credit per share (rounded to 5 decimals), risk
capital per share for PUT-style trades (rounded to 2 decimals), margin
capital (from the unrounded risk capital for PUT-style trades), and ARORC
(from the unrounded risk capital, as a percentage rounded to 1 decimal,
absent unless risk capital, days to expiration and margin percent are all
positive). -/
def computeDerivedFields (tradeType : String) (creditDebit strikePrice commission : ℚ)
    (numContracts : ℕ) (daysToExpiration : ℤ) (marginPercent : ℚ) : DerivedFields :=
  let netCredit := round_standard (creditDebit - commission) 5
  let risk : Option ℚ :=
    if isPutStyle tradeType then some (round_standard (strikePrice - netCredit) 2)
    else none
  let margin : Option ℚ :=
    if tradeType ≠ "BTO" ∧ tradeType ≠ "STC" ∧ 0 < strikePrice then
      if isPutStyle tradeType then
        some ((numContracts : ℚ) * 100 * (strikePrice - netCredit))
      else
        some ((strikePrice - netCredit) * (numContracts : ℚ) * 100)
    else none
  let arorc : Option ℚ :=
    if isPutStyle tradeType then
      let riskUnrounded := strikePrice - netCredit
      if 0 < riskUnrounded ∧ 0 < daysToExpiration ∧ 0 < marginPercent then
        let denominator := riskUnrounded * (marginPercent / 100)
        if 0 < denominator then
          some (round_standard ((365 / (daysToExpiration : ℚ)) *
            (netCredit / denominator) * 100) 1)
        else none
      else none
    else none
  ⟨netCredit, risk, margin, arorc⟩

/-- Does the entry belong to the (`account_id`, `ticker_id`) ledger scope?
(`WHERE ticker_id = ? AND account_id = ?`). -/
def inScope (accountId : ℕ) (tickerId : String) (e : CostBasisEntry) : Bool :=
  decide (e.accountId = accountId ∧ e.tickerId = tickerId)

/-- The ledger restricted to one (account, ticker) scope, in insertion order. -/
def scopeEntries (l : List CostBasisEntry) (accountId : ℕ) (tickerId : String) :
    List CostBasisEntry :=
  l.filter (inScope accountId tickerId)

/-- Is `b` strictly more recent than `a` in the
`ORDER BY transaction_date DESC, rowid DESC` ordering? -/
def cbNewer (a b : CostBasisEntry) : Bool :=
  decide (a.transactionDate < b.transactionDate ∨
    (a.transactionDate = b.transactionDate ∧ a.rowid < b.rowid))

/-- The row selected by `SELECT running_basis, running_shares FROM cost_basis
WHERE ... ORDER BY transaction_date DESC, rowid DESC LIMIT 1`: the entry
maximal in (transaction date, rowid). -/
def lastCostBasis : List CostBasisEntry → Option CostBasisEntry
  | [] => none
  | e :: rest =>
    match lastCostBasis rest with
    | none => some e
    | some b => if cbNewer e b then some b else some e

/-- The running totals seeding a new entry: those of the most recent prior
entry of the scope, or (0, 0) when the scope has no entry yet. -/
def priorRunning (l : List CostBasisEntry) (accountId : ℕ) (tickerId : String) :
    ℚ × ℤ :=
  match lastCostBasis (scopeEntries l accountId tickerId) with
  | some b => (b.runningBasis, b.runningShares)
  | none => (0, 0)

/-- `create_cost_basis_entry` (src/app.py lines 1542-1592): the ledger append
for BTO/STC stock trades.  Reads the most recent prior entry of the
(account, ticker) scope to seed running totals, negates the amount and the
share delta for STC, and stores basis-per-share as running basis over
running shares, or the running basis itself when running shares is zero. -/
def create_cost_basis_entry (s : DBState) (accountId : ℕ) (tickerId : String)
    (tradeId : ℕ) (tradeDate : ℕ) (tradeType : String) (numContracts : ℕ)
    (pricePerShare totalAmountIn : ℚ) : DBState :=
  let description := tradeType ++ " " ++ toString numContracts ++ " " ++ tickerId
  let prior := priorRunning s.costBasis accountId tickerId
  let totalAmount := if tradeType = "STC" then -|totalAmountIn| else totalAmountIn
  let newRunningBasis := prior.1 + totalAmount
  let newRunningShares : ℤ :=
    if tradeType = "STC" then prior.2 - numContracts else prior.2 + numContracts
  let displayShares : ℤ :=
    if tradeType = "STC" then -(numContracts : ℤ) else (numContracts : ℤ)
  let basisPerShare :=
    if newRunningShares ≠ 0 then newRunningBasis / (newRunningShares : ℚ)
    else newRunningBasis
  let e : CostBasisEntry :=
    { rowid := s.nextId, accountId := accountId, tickerId := tickerId,
      tradeId := some tradeId, cashFlowId := none, transactionDate := tradeDate,
      description := description, shares := displayShares,
      costPerShare := pricePerShare, totalAmount := totalAmount,
      runningBasis := newRunningBasis, runningShares := newRunningShares,
      basisPerShare := basisPerShare }
  { s with costBasis := s.costBasis ++ [e], nextId := s.nextId + 1 }

/-- `create_options_cost_basis_entry` (src/app.py lines 1594-1670): the
ledger append for options opens.  Shares delta is 0, amount delta is the
negated total premium.  The first-ever entry of a scope seeds the running
basis directly from the amount delta and stores basis-per-share equal to
the amount delta. -/
def create_options_cost_basis_entry (s : DBState) (accountId : ℕ)
    (tickerId : String) (tradeId : ℕ) (tradeDate : ℕ) (tradeType : String)
    (numContracts : ℕ) (premium strikePrice : ℚ) (expirationDate : ℕ) : DBState :=
  let ticker := tickerId
  let description :=
    if py_in "ROP" tradeType || py_in "PUT" tradeType then
      "SELL -" ++ toString numContracts ++ " " ++ ticker ++ " 100 " ++
        toString expirationDate ++ " " ++ toString strikePrice ++ " PUT @" ++
        toString premium
    else if py_in "ROC" tradeType || py_in "CALL" tradeType then
      "SELL -" ++ toString numContracts ++ " " ++ ticker ++ " 100 " ++
        toString expirationDate ++ " " ++ toString strikePrice ++ " CALL @" ++
        toString premium
    else
      "SELL -" ++ toString numContracts ++ " " ++ ticker ++ " 100 " ++
        toString expirationDate ++ " " ++ toString strikePrice ++ " " ++
        tradeType ++ " @" ++ toString premium
  let shares : ℤ := 0
  let costPerShare : ℚ := 0
  let totalAmount := -(premium * (numContracts : ℚ) * 100)
  let last := lastCostBasis (scopeEntries s.costBasis accountId tickerId)
  let (newRunningBasis, newRunningShares, basisPerShare) :
      ℚ × ℤ × ℚ :=
    match last with
    | none => (totalAmount, shares, totalAmount)
    | some b =>
      let rb := b.runningBasis + totalAmount
      let rs := b.runningShares + shares
      (rb, rs, if rs ≠ 0 then rb / (rs : ℚ) else rb)
  let e : CostBasisEntry :=
    { rowid := s.nextId, accountId := accountId, tickerId := tickerId,
      tradeId := some tradeId, cashFlowId := none, transactionDate := tradeDate,
      description := description, shares := shares,
      costPerShare := costPerShare, totalAmount := totalAmount,
      runningBasis := newRunningBasis, runningShares := newRunningShares,
      basisPerShare := basisPerShare }
  { s with costBasis := s.costBasis ++ [e], nextId := s.nextId + 1 }

/-- `create_assigned_cost_basis_entry` (src/app.py lines 2321-2407): the
ledger append performed when a trade is assigned.  Skipped (no-op) when an
`ASSIGNED`-prefixed entry for the trade already exists.  A PUT assignment
adds `+contracts×100` shares and `+strike×shares` to the basis; a CALL
assignment adds the negated deltas.  The entry is dated at the trade's
expiration date. -/
def create_assigned_cost_basis_entry (s : DBState) (t : Trade) : DBState :=
  let existing := s.costBasis.filter (fun e =>
    decide (e.tradeId = some t.id ∧ e.accountId = t.accountId ∧
      e.tickerId = t.tickerId) && py_startswith e.description "ASSIGNED")
  if 0 < existing.length then s
  else
    let prior := priorRunning s.costBasis t.accountId t.tickerId
    let assignedTradeDate := t.expirationDate
    let numShares := t.numContracts * 100
    let isPut := py_in "PUT" (py_upper t.tradeType) || py_in "ROP" (py_upper t.tradeType)
    let (description, shares, costPerShare, totalAmount) :
        String × ℤ × ℚ × ℚ :=
      if isPut then
        ("ASSIGNED " ++ toString t.expirationDate ++ " PUT",
         (numShares : ℤ), t.strikePrice, t.strikePrice * (numShares : ℚ))
      else
        ("ASSIGNED " ++ toString t.expirationDate ++ " CALL",
         -(numShares : ℤ), t.strikePrice, -(t.strikePrice * (numShares : ℚ)))
    let newRunningBasis := prior.1 + totalAmount
    let newRunningShares := prior.2 + shares
    let basisPerShare :=
      if newRunningShares ≠ 0 then newRunningBasis / (newRunningShares : ℚ)
      else newRunningBasis
    let e : CostBasisEntry :=
      { rowid := s.nextId, accountId := t.accountId, tickerId := t.tickerId,
        tradeId := some t.id, cashFlowId := none,
        transactionDate := assignedTradeDate, description := description,
        shares := shares, costPerShare := costPerShare,
        totalAmount := totalAmount, runningBasis := newRunningBasis,
        runningShares := newRunningShares, basisPerShare := basisPerShare }
    { s with costBasis := s.costBasis ++ [e], nextId := s.nextId + 1 }

/-- `create_roll_diagonal_cost_basis_entry` (src/app.py lines 2242-2312):
the ledger append for a roll, with the diagonal description encoding both
expiration/strike pairs.  Shares delta 0, amount delta
`-(new_credit × new_contracts × 100)`. -/
def create_roll_diagonal_cost_basis_entry (s : DBState) (newTradeId : ℕ)
    (_originalTradeId : ℕ) (accountId : ℕ) (tickerId : String) (tradeDate : ℕ)
    (ticker : String) (newExpDate origExpDate : ℕ) (newStrike origStrike : ℚ)
    (newCredit : ℚ) (originalTradeType : String) (newNumContracts : ℕ) : DBState :=
  let isPut := py_in "PUT" originalTradeType || py_in "ROP" originalTradeType
  let isCall := py_in "CALL" originalTradeType || py_in "ROC" originalTradeType
  let core := "SELL -" ++ toString newNumContracts ++ " DIAGONAL " ++ ticker ++
    " 100 " ++ toString newExpDate ++ "/" ++ toString origExpDate ++ " " ++
    toString newStrike ++ "/" ++ toString origStrike
  let description :=
    if isPut then core ++ " PUT @ " ++ toString newCredit
    else if isCall then core ++ " CALL @ " ++ toString newCredit
    else core ++ " " ++ originalTradeType ++ " @ " ++ toString newCredit
  let shares : ℤ := 0
  let costPerShare : ℚ := 0
  let totalAmount := -(newCredit * (newNumContracts : ℚ) * 100)
  let prior := priorRunning s.costBasis accountId tickerId
  let newRunningBasis := prior.1 + totalAmount
  let newRunningShares := prior.2 + shares
  let basisPerShare :=
    if newRunningShares ≠ 0 then newRunningBasis / (newRunningShares : ℚ)
    else newRunningBasis
  let e : CostBasisEntry :=
    { rowid := s.nextId, accountId := accountId, tickerId := tickerId,
      tradeId := some newTradeId, cashFlowId := none,
      transactionDate := tradeDate, description := description,
      shares := shares, costPerShare := costPerShare,
      totalAmount := totalAmount, runningBasis := newRunningBasis,
      runningShares := newRunningShares, basisPerShare := basisPerShare }
  { s with costBasis := s.costBasis ++ [e], nextId := s.nextId + 1 }

/-- `add_trade` (src/app.py lines 1370-1534): create a trade.  Upper-cases
the ticker, prefixes the trade type with the ticker for the two options
types, rejects a base type missing from `trade_types`, resolves the
commission in effect at the trade date, computes the derived metric
fields, inserts the trade, appends the cost-basis entry (stock or options
variant), records one cash-flow row (the `requires_contracts` lookup uses
the already-prefixed type name), and links the fresh cost-basis entry to
the cash flow.  Returns the new trade's id. -/
def add_trade (s : DBState) (tickerRaw : String) (tradeDate expirationDate : ℕ)
    (numContracts : ℕ) (premium currentPrice strikeRaw : ℚ)
    (tradeTypeInput : String) (accountId : ℕ) : Option (DBState × ℕ) :=
  let ticker := py_upper tickerRaw
  let strikePrice := round_standard strikeRaw 2
  let baseTradeType := tradeTypeInput
  let tradeType :=
    if baseTradeType = "ROCT PUT" ∨ baseTradeType = "ROCT CALL" then
      ticker ++ " " ++ baseTradeType
    else baseTradeType
  let tickerId := ticker
  match s.tradeTypes.find? (fun r => r.typeName = baseTradeType) with
  | none => none
  | some ttRow =>
    let daysToExpiration : ℤ := (expirationDate : ℤ) - (tradeDate : ℤ)
    let (totalPremium, pricePerShare, totalAmount) : ℚ × ℚ × ℚ :=
      if tradeType = "BTO" ∨ tradeType = "STC" then
        (premium * (numContracts : ℚ), premium, premium * (numContracts : ℚ))
      else (premium * (numContracts : ℚ) * 100, 0, 0)
    let commission := get_commission_rate s.commissions accountId tradeDate
    let marginPercent : ℚ := 100
    let d := computeDerivedFields tradeType premium strikePrice commission
      numContracts daysToExpiration marginPercent
    let trade : Trade :=
      { id := s.nextId, accountId := accountId, tickerId := tickerId,
        tradeDate := tradeDate, expirationDate := expirationDate,
        numContracts := numContracts, creditDebit := premium,
        totalPremium := totalPremium, daysToExpiration := daysToExpiration,
        currentPrice := currentPrice, strikePrice := strikePrice,
        tradeStatus := "open", tradeType := tradeType,
        pricePerShare := pricePerShare, totalAmount := totalAmount,
        commissionPerShare := commission, marginCapital := d.marginCapital,
        netCreditPerShare := d.netCreditPerShare,
        riskCapitalPerShare := d.riskCapitalPerShare,
        marginPercent := some marginPercent, arorc := d.arorc,
        tradeTypeId := some ttRow.id, tradeParentId := none }
    let s1 := { s with trades := s.trades ++ [trade], nextId := s.nextId + 1 }
    let s2 :=
      if tradeType = "BTO" ∨ tradeType = "STC" then
        create_cost_basis_entry s1 accountId tickerId trade.id tradeDate
          tradeType numContracts premium totalPremium
      else
        create_options_cost_basis_entry s1 accountId tickerId trade.id
          tradeDate tradeType numContracts premium strikePrice expirationDate
    let requiresContracts :=
      match s.tradeTypes.find? (fun r => r.typeName = tradeType) with
      | some r => r.requiresContracts
      | none => false
    let cfType : String :=
      if requiresContracts then
        if py_in "PUT" tradeType || py_in "ROP" tradeType then "SELL PUT"
        else if py_in "CALL" tradeType || py_in "ROC" tradeType then "SELL CALL"
        else "PREMIUM_CREDIT"
      else if tradeType = "BTO" then "PREMIUM_DEBIT" else "PREMIUM_CREDIT"
    let cfAmount : ℚ :=
      if requiresContracts then py_round (premium * (numContracts : ℚ) * 100) 2
      else py_round totalPremium 2
    let cfDesc : String :=
      if requiresContracts then tradeType ++ " premium received"
      else tradeType ++ " " ++ toString numContracts ++ " shares"
    let cashFlowId := s2.nextId
    let cf : CashFlowEntry :=
      { rowid := s2.nextId, accountId := accountId,
        transactionDate := tradeDate, transactionType := cfType,
        amount := cfAmount, description := cfDesc,
        tradeId := some trade.id, tickerId := some tickerId }
    let s3 := { s2 with
      cashFlows := s2.cashFlows ++ [cf]
      nextId := s2.nextId + 1 }
    let s4 := { s3 with costBasis := s3.costBasis.map (fun e =>
      if decide (e.tradeId = some trade.id ∧ e.tickerId = tickerId ∧
          e.transactionDate = tradeDate ∧ e.cashFlowId = none) then
        { e with cashFlowId := some cashFlowId }
      else e) }
    some (s4, trade.id)

/-- `delete_trade` (src/app.py lines 1678-1702): delete a trade and its
cost-basis entries.  Note: `cash_flows` rows are NOT touched by this
route. -/
def delete_trade (s : DBState) (tradeId : ℕ) : Option DBState :=
  match s.trades.find? (fun t => t.id = tradeId) with
  | none => none
  | some _ =>
    some { s with
      costBasis := s.costBasis.filter (fun e => ¬ e.tradeId = some tradeId),
      trades := s.trades.filter (fun t => ¬ t.id = tradeId) }

/-- The per-trade refresh step of `update_trades_for_commission`
(src/app.py lines 991-1063): re-resolve the commission in effect at the
trade's date and recompute the five derived metric fields, leaving every
other column unchanged. -/
def recalcTrade (commissions : List CommissionRate) (accountId : ℕ) (t : Trade) :
    Trade :=
  let tradeCommissionRate := get_commission_rate commissions accountId t.tradeDate
  let marginPercent := t.marginPercent.getD 100
  let d := computeDerivedFields t.tradeType t.creditDebit t.strikePrice
    tradeCommissionRate t.numContracts t.daysToExpiration marginPercent
  { t with
    commissionPerShare := tradeCommissionRate
    netCreditPerShare := d.netCreditPerShare
    riskCapitalPerShare := d.riskCapitalPerShare
    marginCapital := d.marginCapital
    arorc := d.arorc }

/-- `update_trades_for_commission` (src/app.py lines 969-1068): refresh the
derived metric fields of every trade of the account whose trade date is on
or after the effective date, re-resolving each trade's own commission rate;
returns the number of trades updated.  The `commission_rate` argument is
accepted but, as in the source, each trade's rate is re-resolved from the
`commissions` table rather than taken from the argument. -/
def update_trades_for_commission (s : DBState) (accountId : ℕ)
    (effectiveDate : ℕ) (commissionRate : ℚ) : DBState × ℕ :=
  let affected := fun (t : Trade) =>
    decide (t.accountId = accountId ∧ effectiveDate ≤ t.tradeDate)
  let _ := commissionRate
  ({ s with trades := s.trades.map (fun t =>
      if affected t then recalcTrade s.commissions accountId t else t) },
   (s.trades.filter affected).length)

/-- Python's string slice `s[n:]` (character based). -/
def py_drop (s : String) (n : ℕ) : String := ⟨s.data.drop n⟩

/-- `update_trade_status` (src/app.py lines 2034-2240): set the trade's
status, record the transition in the status history, and perform the
side effects of the assigned / unassigned / roll transitions.  Returns the
new child trade's id for a roll, `none` otherwise; fails only when the
trade does not exist. -/
def update_trade_status (s : DBState) (today : ℕ) (tradeId : ℕ)
    (newStatus : String) : Option (DBState × Option ℕ) :=
  match s.trades.find? (fun t => t.id = tradeId) with
  | none => none
  | some trade =>
    let oldStatus := trade.tradeStatus
    let s1 := { s with
      trades := s.trades.map (fun x =>
        if x.id = tradeId then { x with tradeStatus := newStatus } else x)
      statusHistory := s.statusHistory ++ [(tradeId, oldStatus, newStatus)] }
    if newStatus = "assigned" ∧ oldStatus ≠ "assigned" then
      -- lines 2061-2115: ledger entry, assignment cash flow, link
      let s2 := create_assigned_cost_basis_entry s1 trade
      let accountId := trade.accountId
      let tickerId := trade.tickerId
      let ticker := tickerId
      let shares := trade.numContracts * 100
      let (totalAmount, description) : ℚ × String :=
        if py_in "PUT" trade.tradeType || py_in "ROP" trade.tradeType then
          (-(trade.strikePrice * (shares : ℚ)),
           "ASSIGNMENT: BUY " ++ toString shares ++ " " ++ ticker ++ " @ $" ++
             toString trade.strikePrice ++ " (assigned PUT)")
        else
          (trade.strikePrice * (shares : ℚ),
           "ASSIGNMENT: SELL " ++ toString shares ++ " " ++ ticker ++ " @ $" ++
             toString trade.strikePrice ++ " (assigned CALL)")
      let assignmentTransactionDate := trade.expirationDate + 2
      let cashFlowId := s2.nextId
      let cf : CashFlowEntry :=
        { rowid := s2.nextId, accountId := accountId,
          transactionDate := assignmentTransactionDate,
          transactionType := "ASSIGNMENT", amount := py_round totalAmount 2,
          description := description, tradeId := some tradeId,
          tickerId := some tickerId }
      let s3 := { s2 with
        cashFlows := s2.cashFlows ++ [cf]
        nextId := s2.nextId + 1 }
      let assignedTradeDate := trade.expirationDate
      let s4 := { s3 with costBasis := s3.costBasis.map (fun e =>
        if decide (e.tradeId = some tradeId ∧ e.accountId = accountId ∧
            e.tickerId = tickerId ∧ e.transactionDate = assignedTradeDate) &&
            py_startswith e.description "ASSIGNED" && decide (e.cashFlowId = none)
        then { e with cashFlowId := some cashFlowId } else e) }
      some (s4, none)
    else if oldStatus = "assigned" ∧ newStatus ≠ "assigned" then
      -- lines 2117-2129: delete the assigned cost-basis entries
      some ({ s1 with costBasis := s1.costBasis.filter (fun e =>
        ¬ (decide (e.tradeId = some tradeId ∧ e.accountId = trade.accountId ∧
            e.tickerId = trade.tickerId) &&
           py_startswith e.description "ASSIGNED")) }, none)
    else if newStatus = "roll" ∧ oldStatus = "open" then
      -- lines 2132-2230: child trade with placeholder economics, plus the
      -- roll-diagonal ledger entry built from those placeholders
      let accountId := trade.accountId
      let tickerId := trade.tickerId
      let ticker := tickerId
      let baseTradeType :=
        if ticker ≠ "" ∧ py_startswith trade.tradeType (ticker ++ " ") = true then
          py_drop trade.tradeType (ticker.data.length + 1)
        else trade.tradeType
      let tradeTypeId :=
        (s.tradeTypes.find? (fun r => r.typeName = baseTradeType)).map (·.id)
      let currentDate := today
      let formattedTradeType :=
        if baseTradeType = "ROCT PUT" ∨ baseTradeType = "ROCT CALL" then
          ticker ++ " " ++ baseTradeType
        else trade.tradeType
      let child : Trade :=
        { id := s1.nextId, accountId := accountId, tickerId := tickerId,
          tradeDate := currentDate, expirationDate := currentDate,
          numContracts := 1, creditDebit := 0, totalPremium := 0,
          daysToExpiration := 0, currentPrice := 0, strikePrice := 0,
          tradeStatus := "open", tradeType := formattedTradeType,
          pricePerShare := 0, totalAmount := 0, commissionPerShare := 0,
          marginCapital := none, netCreditPerShare := 0,
          riskCapitalPerShare := none, marginPercent := some 100,
          arorc := none, tradeTypeId := tradeTypeId,
          tradeParentId := some tradeId }
      let s2 := { s1 with trades := s1.trades ++ [child], nextId := s1.nextId + 1 }
      let s3 := create_roll_diagonal_cost_basis_entry s2 child.id tradeId
        accountId tickerId currentDate ticker currentDate trade.expirationDate
        0 trade.strikePrice 0 trade.tradeType 1
      some (s3, some child.id)
    else some (s1, none)

/-- The trade with status `roll` selected by `SELECT ... WHERE ticker_id = ?
AND account_id = ? AND trade_status = 'roll' ORDER BY id DESC LIMIT 1`
(src/app.py lines 2513-2519): the one with the maximal id. -/
def latestRollTrade (trades : List Trade) (tickerId : String) (accountId : ℕ) :
    Option Trade :=
  match trades with
  | [] => none
  | t :: rest =>
    let r := latestRollTrade rest tickerId accountId
    if t.tickerId = tickerId ∧ t.accountId = accountId ∧ t.tradeStatus = "roll"
    then
      match r with
      | none => some t
      | some b => if b.id ≤ t.id then some t else some b
    else r

/-- A typed value for `update_trade_field`; the route receives JSON and
casts it per field (`int(...)`, `float(...)`, `str(...)`), erroring on a
mismatch. -/
inductive FieldValue where
  | num (q : ℚ)
  | count (n : ℕ)
  | date (d : ℕ)
  | str (v : String)
  deriving Repr, DecidableEq

/-- Update the single trade row `id = tradeId` with `f` (the collected
`UPDATE trades SET ... WHERE id = ?`). -/
def setTrade (s : DBState) (tradeId : ℕ) (f : Trade → Trade) : DBState :=
  { s with trades := s.trades.map (fun t => if t.id = tradeId then f t else t) }

/-- Is there already a roll-diagonal cost-basis entry for the trade?
(`SELECT id FROM cost_basis WHERE trade_id = ? AND description LIKE
'SELL -1 DIAGONAL%'`, src/app.py lines 2538-2541 and 2622-2625). -/
def hasDiagonalEntry (l : List CostBasisEntry) (tradeId : ℕ) : Bool :=
  l.any (fun e => decide (e.tradeId = some tradeId) &&
    py_startswith e.description "SELL -1 DIAGONAL")

/-- `update_trade_field` (src/app.py lines 2409-2738): edit one field of a
trade, recomputing the dependent derived fields, and — for a roll child
edited on its creation day — construct the roll-diagonal ledger entry when
the strike/credit are populated, the expiration matches, and no diagonal
entry exists yet for the trade.  All computations read the row as fetched
before the update, as the source does. -/
def update_trade_field (s : DBState) (today : ℕ) (tradeId : ℕ) (field : String)
    (value : FieldValue) : Option DBState :=
  if field ∉ ["num_of_contracts", "credit_debit", "strike_price",
      "trade_status", "current_price", "expiration_date", "ticker",
      "trade_date"] then none
  else
    match s.trades.find? (fun t => t.id = tradeId) with
    | none => none
    | some trade =>
      let ticker := trade.tickerId
      match field, value with
      | "num_of_contracts", .count n =>
        -- lines 2553-2578
        let newTotalPremium := trade.creditDebit * (n : ℚ)
        let newMargin : Option ℚ :=
          if isPutStyle trade.tradeType then
            let currentNet :=
              round_standard (trade.creditDebit - trade.commissionPerShare) 5
            some ((n : ℚ) * 100 * (trade.strikePrice - currentNet))
          else if trade.tradeType ≠ "BTO" ∧ trade.tradeType ≠ "STC" ∧
              0 < trade.strikePrice then
            some ((trade.strikePrice - trade.netCreditPerShare) * (n : ℚ) * 100)
          else trade.marginCapital
        some (setTrade s tradeId (fun t => { t with
          numContracts := n
          totalPremium := newTotalPremium
          marginCapital := newMargin }))
      | "credit_debit", .num q =>
        -- lines 2580-2677
        let newTotalPremium := q * (trade.numContracts : ℚ)
        let newNetCredit := round_standard (q - trade.commissionPerShare) 5
        let s1 :=
          if trade.tradeDate = today ∧ trade.tradeStatus = "open" then
            match latestRollTrade s.trades trade.tickerId trade.accountId with
            | none => s
            | some originalTrade =>
              -- `if original_trade and new_exp_date:` — the expiration date
              -- string of a trade row is always non-empty, hence truthy
              if trade.expirationDate = originalTrade.expirationDate ∧
                  0 < trade.strikePrice ∧ q ≠ 0 then
                if hasDiagonalEntry s.costBasis tradeId then s
                else create_roll_diagonal_cost_basis_entry s tradeId
                  originalTrade.id trade.accountId trade.tickerId
                  trade.tradeDate ticker trade.expirationDate
                  originalTrade.expirationDate trade.strikePrice
                  originalTrade.strikePrice q originalTrade.tradeType
                  trade.numContracts
              else s
          else s
        if isPutStyle trade.tradeType then
          let newRiskCapital := round_standard (trade.strikePrice - newNetCredit) 2
          -- line 2647: this branch multiplies the ROUNDED risk capital
          let newMargin := (trade.numContracts : ℚ) * 100 * newRiskCapital
          let marginPercent := trade.marginPercent.getD 100
          let riskCapitalUnrounded := trade.strikePrice - newNetCredit
          let newArorc : Option ℚ :=
            if 0 < riskCapitalUnrounded ∧ 0 < trade.daysToExpiration ∧
                0 < marginPercent then
              let denominator := riskCapitalUnrounded * (marginPercent / 100)
              if 0 < denominator then
                some (round_standard ((365 / (trade.daysToExpiration : ℚ)) *
                  (newNetCredit / denominator) * 100) 1)
              else trade.arorc
            else trade.arorc
          some (setTrade s1 tradeId (fun t => { t with
            creditDebit := q
            totalPremium := newTotalPremium
            netCreditPerShare := newNetCredit
            riskCapitalPerShare := some newRiskCapital
            marginCapital := some newMargin
            arorc := newArorc }))
        else
          let newMargin : Option ℚ :=
            if trade.tradeType ≠ "BTO" ∧ trade.tradeType ≠ "STC" ∧
                0 < trade.strikePrice then
              some ((trade.strikePrice - newNetCredit) *
                (trade.numContracts : ℚ) * 100)
            else trade.marginCapital
          some (setTrade s1 tradeId (fun t => { t with
            creditDebit := q
            totalPremium := newTotalPremium
            netCreditPerShare := newNetCredit
            riskCapitalPerShare := none
            marginCapital := newMargin }))
      | "strike_price", .num q =>
        -- lines 2679-2722
        let v := round_standard q 2
        let currentNet :=
          round_standard (trade.creditDebit - trade.commissionPerShare) 5
        if isPutStyle trade.tradeType then
          let newRiskCapital := round_standard (v - currentNet) 2
          let newMargin := (trade.numContracts : ℚ) * 100 * (v - currentNet)
          let marginPercent := trade.marginPercent.getD 100
          let riskCapitalUnrounded := v - currentNet
          let newArorc : Option ℚ :=
            if 0 < riskCapitalUnrounded ∧ 0 < trade.daysToExpiration ∧
                0 < marginPercent then
              let denominator := riskCapitalUnrounded * (marginPercent / 100)
              if 0 < denominator then
                some (round_standard ((365 / (trade.daysToExpiration : ℚ)) *
                  (currentNet / denominator) * 100) 1)
              else trade.arorc
            else trade.arorc
          some (setTrade s tradeId (fun t => { t with
            strikePrice := v
            riskCapitalPerShare := some newRiskCapital
            marginCapital := some newMargin
            arorc := newArorc }))
        else
          let newMargin : Option ℚ :=
            if trade.tradeType ≠ "BTO" ∧ trade.tradeType ≠ "STC" ∧ 0 < v then
              some ((v - currentNet) * (trade.numContracts : ℚ) * 100)
            else trade.marginCapital
          some (setTrade s tradeId (fun t => { t with
            strikePrice := v
            marginCapital := newMargin }))
      | "current_price", .num q =>
        some (setTrade s tradeId (fun t => { t with
          currentPrice := round_standard q 2 }))
      | "expiration_date", .date d =>
        some (setTrade s tradeId (fun t => { t with
          expirationDate := d
          daysToExpiration := (d : ℤ) - (trade.tradeDate : ℤ) }))
      | "trade_date", .date d =>
        -- lines 2494-2550
        let newDte : ℤ := (trade.expirationDate : ℤ) - (d : ℤ)
        let s1 :=
          if trade.tradeDate = today ∧ trade.tradeStatus = "open" then
            match latestRollTrade s.trades trade.tickerId trade.accountId with
            | none => s
            | some originalTrade =>
              -- line 2529 compares the NEW trade date to the original
              -- trade's expiration date
              if d = originalTrade.expirationDate then
                if 0 < trade.strikePrice ∧ trade.creditDebit ≠ 0 then
                  if hasDiagonalEntry s.costBasis tradeId then s
                  else create_roll_diagonal_cost_basis_entry s tradeId
                    originalTrade.id trade.accountId trade.tickerId
                    trade.tradeDate ticker d originalTrade.expirationDate
                    trade.strikePrice originalTrade.strikePrice
                    trade.creditDebit originalTrade.tradeType
                    trade.numContracts
                else s
              else s
          else s
        some (setTrade s1 tradeId (fun t => { t with
          tradeDate := d
          daysToExpiration := newDte }))
      | "trade_status", .str v =>
        some (setTrade s tradeId (fun t => { t with tradeStatus := v }))
      | "ticker", .str v =>
        some (setTrade s tradeId (fun t => { t with tickerId := py_upper v }))
      | _, _ => none

/-- Sum of the signed share deltas of a ledger fragment. -/
def sumShares (l : List CostBasisEntry) : ℤ := (l.map (fun e => e.shares)).sum

/-- Sum of the signed amount deltas of a ledger fragment. -/
def sumAmount (l : List CostBasisEntry) : ℚ := (l.map (fun e => e.totalAmount)).sum

/-- The running-total invariant of the claim: in every (account, ticker)
scope, the running shares/basis stored on the entry that is last in
(transaction date, insertion sequence) order equal the sums of the signed
deltas of all the scope's entries. -/
def LedgerSumOk (l : List CostBasisEntry) : Prop :=
  ∀ a tk e, lastCostBasis (scopeEntries l a tk) = some e →
    e.runningShares = sumShares (scopeEntries l a tk) ∧
    e.runningBasis = sumAmount (scopeEntries l a tk)

/-- The per-entry basis-per-share rule: basis-per-share is running basis
over running shares, or the running basis itself when running shares is
zero. -/
def BpsOk (l : List CostBasisEntry) : Prop :=
  ∀ e ∈ l, e.basisPerShare =
    if e.runningShares ≠ 0 then e.runningBasis / (e.runningShares : ℚ)
    else e.runningBasis

/-- Freshness of the id counter over the ledger: every stored rowid is
below `n`.  Holds of every state the program reaches, since rowids are
drawn from the monotone counter. -/
def rowIdsBelow (l : List CostBasisEntry) (n : ℕ) : Prop :=
  ∀ e ∈ l, e.rowid < n

/-- Rewrite only the `cashFlowId` column of a ledger entry; the shape of the
`UPDATE cost_basis SET cash_flow_id = ...` statements. -/
def withCashFlowId (g : CostBasisEntry → Option ℕ) (e : CostBasisEntry) :
    CostBasisEntry :=
  { e with cashFlowId := g e }

/-- Two trade rows agree on every column except the five derived metric
fields (`commission_per_share`, `net_credit_per_share`,
`risk_capital_per_share`, `margin_capital`, `ARORC`). -/
def sameNonDerived (t' t : Trade) : Prop :=
  t'.id = t.id ∧ t'.accountId = t.accountId ∧ t'.tickerId = t.tickerId ∧
  t'.tradeDate = t.tradeDate ∧ t'.expirationDate = t.expirationDate ∧
  t'.numContracts = t.numContracts ∧ t'.creditDebit = t.creditDebit ∧
  t'.totalPremium = t.totalPremium ∧
  t'.daysToExpiration = t.daysToExpiration ∧
  t'.currentPrice = t.currentPrice ∧ t'.strikePrice = t.strikePrice ∧
  t'.tradeStatus = t.tradeStatus ∧ t'.tradeType = t.tradeType ∧
  t'.pricePerShare = t.pricePerShare ∧ t'.totalAmount = t.totalAmount ∧
  t'.marginPercent = t.marginPercent ∧ t'.tradeTypeId = t.tradeTypeId ∧
  t'.tradeParentId = t.tradeParentId

/-- The empty database carrying the seeded trade-type vocabulary: the state
of a freshly initialised tracker (`init_db`). -/
def initState : DBState :=
  { trades := [], costBasis := [], cashFlows := [], commissions := [],
    tradeTypes := seededTradeTypes, statusHistory := [], nextId := 1 }

/-- A concrete open cash-secured-PUT trade row, as `add_trade` would store
it (id 1, ticker XX, strike 10, one contract). -/
def sampleOpenPut : Trade :=
  { id := 1, accountId := 1, tickerId := "XX", tradeDate := 5,
    expirationDate := 30, numContracts := 1, creditDebit := 2,
    totalPremium := 200, daysToExpiration := 25, currentPrice := 0,
    strikePrice := 10, tradeStatus := "open", tradeType := "XX ROCT PUT",
    pricePerShare := 0, totalAmount := 0, commissionPerShare := 0,
    marginCapital := some 800, netCreditPerShare := 2,
    riskCapitalPerShare := some 8, marginPercent := some 100,
    arorc := some 365, tradeTypeId := some 1, tradeParentId := none }

/-- A database holding just `sampleOpenPut`. -/
def sampleState : DBState :=
  { trades := [sampleOpenPut], costBasis := [], cashFlows := [],
    commissions := [], tradeTypes := seededTradeTypes, statusHistory := [],
    nextId := 2 }

/-! ## General lemmas about the embedded primitives -/

theorem String.ext_data {a b : String} (h : a.data = b.data) : a = b :=
  congrArg String.mk h

theorem string_ne_of_length {a b : String} (h : a.data.length ≠ b.data.length) :
    a ≠ b := fun he => h (by rw [he])

theorem data_append_append (a b c : String) :
    (a ++ b ++ c).data = a.data ++ b.data ++ c.data := by
  rw [String.data_append, String.data_append]

theorem leadsWith_iff (n h : List Char) :
    leadsWith n h = true ↔ ∃ t, h = n ++ t := by
  induction n generalizing h with
  | nil => simp [leadsWith]
  | cons a as ih =>
    cases h with
    | nil => simp [leadsWith]
    | cons b bs =>
      simp only [leadsWith, Bool.and_eq_true, decide_eq_true_eq, ih,
        List.cons_append, List.cons.injEq]
      constructor
      · rintro ⟨rfl, t, rfl⟩; exact ⟨t, rfl, rfl⟩
      · rintro ⟨t, rfl, rfl⟩; exact ⟨rfl, t, rfl⟩

theorem infixOf_iff (n h : List Char) :
    infixOf n h = true ↔ ∃ p t, h = p ++ (n ++ t) := by
  induction h with
  | nil =>
    simp only [infixOf, leadsWith_iff]
    constructor
    · rintro ⟨t, ht⟩
      exact ⟨[], t, ht⟩
    · rintro ⟨p, t, ht⟩
      cases p with
      | nil => exact ⟨t, ht⟩
      | cons a as => simp at ht
  | cons c rest ih =>
    simp only [infixOf, Bool.or_eq_true, leadsWith_iff, ih]
    constructor
    · rintro (⟨t, ht⟩ | ⟨p, t, ht⟩)
      · exact ⟨[], t, by simpa using ht⟩
      · exact ⟨c :: p, t, by simp [ht]⟩
    · rintro ⟨p, t, ht⟩
      cases p with
      | nil => exact Or.inl ⟨t, by simpa using ht⟩
      | cons a as =>
        simp only [List.cons_append, List.cons.injEq] at ht
        exact Or.inr ⟨as, t, ht.2⟩

theorem py_in_of_parts (needle pre suf hay : String)
    (h : hay.data = pre.data ++ (needle.data ++ suf.data)) :
    py_in needle hay = true := by
  rw [py_in, infixOf_iff]
  exact ⟨pre.data, suf.data, h⟩

theorem py_startswith_of_append (p t s : String) (h : s.data = p.data ++ t.data) :
    py_startswith s p = true := by
  rw [py_startswith, leadsWith_iff]
  exact ⟨t.data, h⟩

/-! ## Commission resolution (Rate Resolver) -/

theorem bestCommission_eq_none_iff (cs : List CommissionRate) (a d : ℕ) :
    bestCommission cs a d = none ↔
      ∀ c ∈ cs, ¬(c.accountId = a ∧ c.effectiveDate ≤ d) := by
  induction cs with
  | nil => simp [bestCommission]
  | cons c rest ih =>
    by_cases hc : c.accountId = a ∧ c.effectiveDate ≤ d
    · have hsome : ∃ y, bestCommission (c :: rest) a d = some y := by
        rw [bestCommission, if_pos hc]
        rcases bestCommission rest a d with _ | b
        · exact ⟨c, rfl⟩
        · rw [pickBetter]; split
          · exact ⟨c, rfl⟩
          · exact ⟨b, rfl⟩
      obtain ⟨y, hy⟩ := hsome
      rw [hy]
      exact iff_of_false (by simp)
        (fun h => h c (List.mem_cons_self c rest) hc)
    · rw [bestCommission, if_neg hc, ih]
      constructor
      · intro h x hx
        rcases List.mem_cons.mp hx with rfl | hx
        · exact hc
        · exact h x hx
      · intro h x hx
        exact h x (List.mem_cons_of_mem _ hx)

theorem bestCommission_spec (cs : List CommissionRate) (a d : ℕ)
    (b : CommissionRate) (hb : bestCommission cs a d = some b) :
    b ∈ cs ∧ b.accountId = a ∧ b.effectiveDate ≤ d ∧
      ∀ c ∈ cs, c.accountId = a → c.effectiveDate ≤ d →
        c.effectiveDate ≤ b.effectiveDate := by
  induction cs generalizing b with
  | nil => simp [bestCommission] at hb
  | cons c rest ih =>
    rw [bestCommission] at hb
    by_cases hc : c.accountId = a ∧ c.effectiveDate ≤ d
    · rw [if_pos hc] at hb
      rcases hr : bestCommission rest a d with _ | b'
      · rw [hr, pickBetter] at hb
        cases hb
        refine ⟨List.mem_cons_self _ _, hc.1, hc.2, ?_⟩
        intro x hx hxa hxd
        rcases List.mem_cons.mp hx with rfl | hx
        · exact le_rfl
        · exact absurd ⟨hxa, hxd⟩
            ((bestCommission_eq_none_iff rest a d).mp hr x hx)
      · rw [hr, pickBetter] at hb
        obtain ⟨hmem, hba, hbd, hmax⟩ := ih b' hr
        rcases le_or_lt b'.effectiveDate c.effectiveDate with hbc | hbc
        · rw [if_pos hbc] at hb; cases hb
          refine ⟨List.mem_cons_self _ _, hc.1, hc.2, ?_⟩
          intro x hx hxa hxd
          rcases List.mem_cons.mp hx with rfl | hx
          · exact le_rfl
          · exact le_trans (hmax x hx hxa hxd) hbc
        · rw [if_neg (not_le.mpr hbc)] at hb; cases hb
          refine ⟨List.mem_cons_of_mem _ hmem, hba, hbd, ?_⟩
          intro x hx hxa hxd
          rcases List.mem_cons.mp hx with rfl | hx
          · exact le_of_lt hbc
          · exact hmax x hx hxa hxd
    · rw [if_neg hc] at hb
      obtain ⟨hmem, hba, hbd, hmax⟩ := ih b hb
      refine ⟨List.mem_cons_of_mem _ hmem, hba, hbd, ?_⟩
      intro x hx hxa hxd
      rcases List.mem_cons.mp hx with rfl | hx
      · exact absurd ⟨hxa, hxd⟩ hc
      · exact hmax x hx hxa hxd

/-- C5: commission-rate resolution is a total, side-effect-free function of
the `commissions` table: when no row of the account has effective date ≤
the date it returns 0.0, and otherwise it returns the rate of a row of the
account with the latest effective date ≤ the date.  (Totality and freedom
from side effects are witnessed by `get_commission_rate` being a pure Lean
function on the table.) -/
theorem get_commission_rate_spec (cs : List CommissionRate) (a d : ℕ) :
    ((∀ c ∈ cs, ¬(c.accountId = a ∧ c.effectiveDate ≤ d)) →
      get_commission_rate cs a d = 0) ∧
    (∀ c₀ ∈ cs, c₀.accountId = a → c₀.effectiveDate ≤ d →
      ∃ c, c ∈ cs ∧ c.accountId = a ∧ c.effectiveDate ≤ d ∧
        get_commission_rate cs a d = c.rate ∧
        ∀ c' ∈ cs, c'.accountId = a → c'.effectiveDate ≤ d →
          c'.effectiveDate ≤ c.effectiveDate) := by
  constructor
  · intro h
    rw [get_commission_rate, (bestCommission_eq_none_iff cs a d).mpr h]
  · intro c₀ h₀ ha hd
    rcases hr : bestCommission cs a d with _ | b
    · exact absurd ⟨ha, hd⟩ ((bestCommission_eq_none_iff cs a d).mp hr c₀ h₀)
    · obtain ⟨hmem, hba, hbd, hmax⟩ := bestCommission_spec cs a d b hr
      exact ⟨b, hmem, hba, hbd, by rw [get_commission_rate, hr], hmax⟩

/-- Witness for C5 at a concrete table: with rows (account 1, rate 2,
date 10) and (account 1, rate 7, date 20), the rate on date 25 is 7 and on
an account with no rows the result is 0. -/
theorem get_commission_rate_spec_witness :
    get_commission_rate [⟨1, 2, 10⟩, ⟨1, 7, 20⟩] 1 25 = 7 ∧
      get_commission_rate [⟨1, 2, 10⟩, ⟨1, 7, 20⟩] 2 25 = 0 := by
  constructor
  · obtain ⟨c, hmem, -, -, heq, hmax⟩ :=
      (get_commission_rate_spec [⟨1, 2, 10⟩, ⟨1, 7, 20⟩] 1 25).2
        ⟨1, 7, 20⟩ (by decide) rfl (by decide)
    have h20 : (20 : ℕ) ≤ c.effectiveDate :=
      hmax ⟨1, 7, 20⟩ (by decide) rfl (by decide)
    have hc : c = ⟨1, 2, 10⟩ ∨ c = ⟨1, 7, 20⟩ := by simpa using hmem
    rcases hc with rfl | rfl
    · exact absurd h20 (by decide)
    · rw [heq]
  · exact (get_commission_rate_spec [⟨1, 2, 10⟩, ⟨1, 7, 20⟩] 2 25).1 (by decide)

/-! ## ARORC (Metrics Calculator) -/

/-- C4: for a PUT-style trade the stored ARORC is null exactly when the
unrounded risk capital, the days to expiration, or the margin percent is
≤ 0; otherwise it is `(365/days) × (net_credit / (risk_unrounded ×
margin_percent/100))` as a percentage rounded to 1 decimal.  The
computation is a total function, so neither case raises an error.  This is
the block executed by both `add_trade` and
`update_trades_for_commission`. -/
theorem arorc_spec (tradeType : String) (creditDebit strikePrice commission : ℚ)
    (numContracts : ℕ) (dte : ℤ) (marginPercent : ℚ)
    (hput : isPutStyle tradeType = true) :
    ((computeDerivedFields tradeType creditDebit strikePrice commission
        numContracts dte marginPercent).arorc = none ↔
      (strikePrice - round_standard (creditDebit - commission) 5 ≤ 0 ∨
        dte ≤ 0 ∨ marginPercent ≤ 0)) ∧
    (0 < strikePrice - round_standard (creditDebit - commission) 5 →
      0 < dte → 0 < marginPercent →
      (computeDerivedFields tradeType creditDebit strikePrice commission
          numContracts dte marginPercent).arorc =
        some (round_standard ((365 / (dte : ℚ)) *
          (round_standard (creditDebit - commission) 5 /
            ((strikePrice - round_standard (creditDebit - commission) 5) *
              (marginPercent / 100))) * 100) 1)) := by
  have hden : 0 < strikePrice - round_standard (creditDebit - commission) 5 →
      0 < marginPercent →
      0 < (strikePrice - round_standard (creditDebit - commission) 5) *
        (marginPercent / 100) :=
    fun h1 h3 => mul_pos h1 (div_pos h3 (by norm_num))
  simp only [computeDerivedFields, hput, if_true]
  by_cases hall : 0 < strikePrice - round_standard (creditDebit - commission) 5 ∧
      0 < dte ∧ 0 < marginPercent
  · rw [if_pos hall, if_pos (hden hall.1 hall.2.2)]
    constructor
    · exact iff_of_false (by simp)
        (by push_neg; exact ⟨hall.1, hall.2.1, hall.2.2⟩)
    · intro _ _ _; rfl
  · rw [if_neg hall]
    constructor
    · refine iff_of_true rfl ?_
      by_contra hcon
      push_neg at hcon
      exact hall hcon
    · intro h1 h2 h3; exact absurd ⟨h1, h2, h3⟩ hall

/-- Witness for C4: a PUT-style trade with strike 245, credit 2.50,
commission 1.00, 30 days to expiration and margin percent 100 has
a non-null ARORC, and one with 0 days to expiration has a null ARORC. -/
theorem arorc_spec_witness :
    (computeDerivedFields "XX ROCT PUT" (5/2) 245 1 1 30 100).arorc =
      some (round_standard ((365 / (30 : ℚ)) *
        (round_standard ((5/2 : ℚ) - 1) 5 /
          ((245 - round_standard ((5/2 : ℚ) - 1) 5) * ((100 : ℚ) / 100))) *
        100) 1) ∧
    (computeDerivedFields "XX ROCT PUT" (5/2) 245 1 1 0 100).arorc = none := by
  constructor
  · exact (arorc_spec "XX ROCT PUT" (5/2) 245 1 1 30 100 (by decide)).2
      (by norm_num [round_standard]) (by decide) (by norm_num)
  · exact (arorc_spec "XX ROCT PUT" (5/2) 245 1 1 0 100 (by decide)).1.mpr
      (Or.inr (Or.inl le_rfl))

/-! ## The ticker-prefixed trade-type names -/

theorem prefixed_data (tk b : String) :
    (tk ++ " " ++ b).data = tk.data ++ ([' '] ++ b.data) := by
  rw [data_append_append, List.append_assoc]

theorem prefixed_length (tk b : String) :
    (tk ++ " " ++ b).data.length = tk.data.length + 1 + b.data.length := by
  rw [prefixed_data]
  simp
  omega

theorem prefixed_ne (tk b c : String)
    (h : tk.data.length + 1 + b.data.length ≠ c.data.length) :
    tk ++ " " ++ b ≠ c :=
  string_ne_of_length (by rw [prefixed_length]; exact h)

theorem prefixed_ne_of_short (tk b c : String) (h4 : 4 ≤ b.data.length)
    (h3 : c.data.length ≤ 3) : tk ++ " " ++ b ≠ c :=
  prefixed_ne tk b c (by omega)

theorem prefixed_put_ne_BTO (tk : String) : tk ++ " " ++ "ROCT PUT" ≠ "BTO" :=
  prefixed_ne_of_short tk "ROCT PUT" "BTO" (by decide) (by decide)

theorem prefixed_put_ne_STC (tk : String) : tk ++ " " ++ "ROCT PUT" ≠ "STC" :=
  prefixed_ne_of_short tk "ROCT PUT" "STC" (by decide) (by decide)

theorem prefixed_call_ne_BTO (tk : String) :
    tk ++ " " ++ "ROCT CALL" ≠ "BTO" :=
  prefixed_ne_of_short tk "ROCT CALL" "BTO" (by decide) (by decide)

theorem prefixed_call_ne_STC (tk : String) :
    tk ++ " " ++ "ROCT CALL" ≠ "STC" :=
  prefixed_ne_of_short tk "ROCT CALL" "STC" (by decide) (by decide)

theorem prefixed_put_ne_ROCTPUT (tk : String) :
    tk ++ " " ++ "ROCT PUT" ≠ "ROCT PUT" :=
  prefixed_ne tk "ROCT PUT" "ROCT PUT" (by
    have : ("ROCT PUT" : String).data.length = 8 := rfl
    omega)

theorem prefixed_put_ne_ROCTCALL (tk : String) :
    tk ++ " " ++ "ROCT PUT" ≠ "ROCT CALL" := by
  by_cases h : tk.data.length = 0
  · have htk : tk = "" := String.ext_data (List.length_eq_zero.mp h)
    subst htk
    decide
  · refine prefixed_ne tk "ROCT PUT" "ROCT CALL" ?_
    have h1 : ("ROCT PUT" : String).data.length = 8 := rfl
    have h2 : ("ROCT CALL" : String).data.length = 9 := rfl
    omega

theorem prefixed_call_ne_ROCTPUT (tk : String) :
    tk ++ " " ++ "ROCT CALL" ≠ "ROCT PUT" :=
  prefixed_ne tk "ROCT CALL" "ROCT PUT" (by
    have h1 : ("ROCT CALL" : String).data.length = 9 := rfl
    have h2 : ("ROCT PUT" : String).data.length = 8 := rfl
    omega)

theorem prefixed_call_ne_ROCTCALL (tk : String) :
    tk ++ " " ++ "ROCT CALL" ≠ "ROCT CALL" :=
  prefixed_ne tk "ROCT CALL" "ROCT CALL" (by
    have : ("ROCT CALL" : String).data.length = 9 := rfl
    omega)

theorem py_in_base (tk b : String) : py_in b (tk ++ " " ++ b) = true := by
  refine py_in_of_parts b (tk ++ " ") "" (tk ++ " " ++ b) ?_
  rw [prefixed_data, String.data_append]
  simp

theorem isPutStyle_prefixed_put (tk : String) :
    isPutStyle (tk ++ " " ++ "ROCT PUT") = true := by
  rw [isPutStyle, py_in_base]
  rfl

/-! ## Recalculation Cascade -/

theorem recalc_step_idem (cs : List CommissionRate) (a effD : ℕ) (t : Trade) :
    (fun u : Trade => if decide (u.accountId = a ∧ effD ≤ u.tradeDate) then
        recalcTrade cs a u else u)
      ((fun u : Trade => if decide (u.accountId = a ∧ effD ≤ u.tradeDate) then
        recalcTrade cs a u else u) t) =
    (fun u : Trade => if decide (u.accountId = a ∧ effD ≤ u.tradeDate) then
        recalcTrade cs a u else u) t := by
  by_cases h : t.accountId = a ∧ effD ≤ t.tradeDate
  · have hb : decide (t.accountId = a ∧ effD ≤ t.tradeDate) = true :=
      decide_eq_true h
    have hb2 : decide ((recalcTrade cs a t).accountId = a ∧
        effD ≤ (recalcTrade cs a t).tradeDate) = true := decide_eq_true h
    simp only [hb, hb2, if_true, ite_true]
    rfl
  · have hb : decide (t.accountId = a ∧ effD ≤ t.tradeDate) = false :=
      decide_eq_false h
    simp only [hb, Bool.false_eq_true, if_false, ite_false]

theorem recalc_map_idem (cs : List CommissionRate) (a effD : ℕ)
    (l : List Trade) :
    (l.map (fun u : Trade =>
        if decide (u.accountId = a ∧ effD ≤ u.tradeDate) then
          recalcTrade cs a u else u)).map
      (fun u : Trade => if decide (u.accountId = a ∧ effD ≤ u.tradeDate) then
        recalcTrade cs a u else u) =
    l.map (fun u : Trade => if decide (u.accountId = a ∧ effD ≤ u.tradeDate) then
      recalcTrade cs a u else u) := by
  induction l with
  | nil => rfl
  | cons x xs ih =>
    simp only [List.map_cons, List.cons.injEq]
    exact ⟨recalc_step_idem cs a effD x, ih⟩

/-- C3: the recalculation cascade is idempotent for a fixed (account,
effective date); it leaves the cost-basis ledger, the cash flows and all
other tables untouched; it rewrites the trades table pointwise, leaving
every trade with trade date before the effective date (or of another
account) unchanged and changing at most the five derived metric fields of
the others; and over an empty trade set it returns the unchanged state and
a zero count. -/
theorem commission_cascade_spec (s : DBState) (a effD : ℕ) (r : ℚ) :
    ((update_trades_for_commission
        (update_trades_for_commission s a effD r).1 a effD r).1 =
      (update_trades_for_commission s a effD r).1) ∧
    ((update_trades_for_commission s a effD r).1.costBasis = s.costBasis ∧
     (update_trades_for_commission s a effD r).1.cashFlows = s.cashFlows ∧
     (update_trades_for_commission s a effD r).1.commissions = s.commissions ∧
     (update_trades_for_commission s a effD r).1.tradeTypes = s.tradeTypes ∧
     (update_trades_for_commission s a effD r).1.statusHistory =
       s.statusHistory ∧
     (update_trades_for_commission s a effD r).1.nextId = s.nextId) ∧
    ((update_trades_for_commission s a effD r).1.trades = s.trades.map
      (fun t => if decide (t.accountId = a ∧ effD ≤ t.tradeDate) then
        recalcTrade s.commissions a t else t)) ∧
    (∀ t : Trade, ¬(t.accountId = a ∧ effD ≤ t.tradeDate) →
      (if decide (t.accountId = a ∧ effD ≤ t.tradeDate) then
        recalcTrade s.commissions a t else t) = t) ∧
    (∀ t : Trade, sameNonDerived (recalcTrade s.commissions a t) t) ∧
    (s.trades = [] → update_trades_for_commission s a effD r = (s, 0)) := by
  refine ⟨?_, ⟨rfl, rfl, rfl, rfl, rfl, rfl⟩, rfl, ?_, ?_, ?_⟩
  · exact congrArg (fun l => { s with trades := l })
      (recalc_map_idem s.commissions a effD s.trades)
  · intro t h
    have hb : decide (t.accountId = a ∧ effD ≤ t.tradeDate) = false :=
      decide_eq_false h
    rw [hb]
    rfl
  · intro t
    exact ⟨rfl, rfl, rfl, rfl, rfl, rfl, rfl, rfl, rfl, rfl, rfl, rfl, rfl,
      rfl, rfl, rfl, rfl, rfl⟩
  · intro h
    show ({ s with trades := _ }, _) = (s, 0)
    rw [h]
    show ({ s with trades := ([] : List Trade) }, 0) = (s, 0)
    rw [← h]

/-- Witness for C3: over the seeded empty-trades state the cascade returns
the state unchanged with an updated-row count of zero. -/
theorem commission_cascade_spec_witness :
    update_trades_for_commission initState 1 5 2 = (initState, 0) :=
  (commission_cascade_spec initState 1 5 2).2.2.2.2.2 rfl

/-! ## Derived metrics stored at trade creation -/

theorem computeDerived_put (tt : String) (hput : isPutStyle tt = true)
    (hb : tt ≠ "BTO") (hs : tt ≠ "STC") (cd strike comm : ℚ) (n : ℕ)
    (dte : ℤ) (mp : ℚ) :
    (computeDerivedFields tt cd strike comm n dte mp).netCreditPerShare =
      round_standard (cd - comm) 5 ∧
    (computeDerivedFields tt cd strike comm n dte mp).riskCapitalPerShare =
      some (round_standard (strike - round_standard (cd - comm) 5) 2) ∧
    (computeDerivedFields tt cd strike comm n dte mp).marginCapital =
      (if 0 < strike then
        some ((n : ℚ) * 100 * (strike - round_standard (cd - comm) 5))
      else none) := by
  refine ⟨rfl, ?_, ?_⟩
  · simp only [computeDerivedFields, hput, if_true, ite_true]
  · simp only [computeDerivedFields, hput, if_true, ite_true]
    by_cases hst : 0 < strike
    · rw [if_pos ⟨hb, hs, hst⟩, if_pos hst]
    · rw [if_neg (fun h => hst h.2.2), if_neg hst]

/-- C2 (amended): a trade created with base type `ROCT PUT` stores
`net_credit_per_share = round₅(credit − commission)`,
`risk_capital_per_share = round₂(strike − net_credit)`, and — provided the
(2-decimal rounded) strike is positive — `margin_capital = contracts × 100
× (strike − net_credit)` computed from the unrounded risk capital; when the
strike is not positive, `margin_capital` is stored as null instead of the
formula value. -/
theorem put_trade_derived_fields (s : DBState) (tickerRaw : String)
    (td ed n : ℕ) (prem cp strikeRaw : ℚ) (acct : ℕ) (row : TradeTypeRow)
    (hfind : s.tradeTypes.find? (fun r => r.typeName = "ROCT PUT") = some row) :
    ∃ st, add_trade s tickerRaw td ed n prem cp strikeRaw "ROCT PUT" acct =
        some st ∧
      st.2 = s.nextId ∧
      ∃ T, st.1.trades = s.trades ++ [T] ∧
        T.tradeType = py_upper tickerRaw ++ " " ++ "ROCT PUT" ∧
        T.commissionPerShare = get_commission_rate s.commissions acct td ∧
        T.netCreditPerShare =
          round_standard (prem - get_commission_rate s.commissions acct td) 5 ∧
        T.riskCapitalPerShare = some (round_standard (round_standard strikeRaw 2 -
          round_standard (prem - get_commission_rate s.commissions acct td) 5) 2) ∧
        T.marginCapital = (if 0 < round_standard strikeRaw 2 then
          some ((n : ℚ) * 100 * (round_standard strikeRaw 2 -
            round_standard (prem - get_commission_rate s.commissions acct td) 5))
        else none) := by
  rw [add_trade, hfind]
  have hc1 : ("ROCT PUT" : String) = "ROCT PUT" ∨
      ("ROCT PUT" : String) = "ROCT CALL" := Or.inl rfl
  have hc2 : ¬((py_upper tickerRaw ++ " " ++ "ROCT PUT") = "BTO" ∨
      (py_upper tickerRaw ++ " " ++ "ROCT PUT") = "STC") := by
    rintro (h | h)
    · exact prefixed_put_ne_BTO _ h
    · exact prefixed_put_ne_STC _ h
  rw [if_pos hc1]
  simp only [if_neg hc2]
  refine ⟨_, rfl, rfl, ?_⟩
  simp only [create_options_cost_basis_entry]
  obtain ⟨hnet, hrisk, hmarg⟩ := computeDerived_put
    (py_upper tickerRaw ++ " " ++ "ROCT PUT") (isPutStyle_prefixed_put _)
    (prefixed_put_ne_BTO _) (prefixed_put_ne_STC _) prem
    (round_standard strikeRaw 2) (get_commission_rate s.commissions acct td)
    n ((ed : ℤ) - (td : ℤ)) 100
  exact ⟨_, rfl, rfl, rfl, hnet, hrisk, hmarg⟩

/-- C2 counterexample to the unconditional margin formula: a `ROCT PUT`
trade created with strike 0 (the route's default when no strike is sent)
stores a null `margin_capital`, while the claimed formula
`quantity × 100 × (strike − net_credit_per_share)` has the value −250. -/
theorem put_trade_margin_counterexample :
    ((add_trade initState "XX" 5 30 1 (5/2) 0 0 "ROCT PUT" 1).map
      (fun st => st.1.trades.map (fun t =>
        (t.netCreditPerShare, t.marginCapital)))) = some [(5/2, none)] ∧
    (1 : ℚ) * 100 * (0 - round_standard ((5/2 : ℚ) - 0) 5) = -250 := by
  constructor
  · with_unfolding_all rfl
  · with_unfolding_all rfl

/-- Witness for C2 at the worked example: strike 245.00, credit 2.50,
commission 1.00, quantity 1 gives net credit 1.50, risk capital 243.50 and
margin capital 24350.00. -/
theorem put_trade_derived_fields_witness :
    (∃ st, add_trade { initState with commissions := [⟨1, 1, 0⟩] } "XX" 5 30 1
        (5/2) 245 245 "ROCT PUT" 1 = some st ∧
      st.2 = ({ initState with commissions := [⟨1, 1, 0⟩] } : DBState).nextId ∧
      ∃ T, st.1.trades =
          ({ initState with commissions := [⟨1, 1, 0⟩] } : DBState).trades ++ [T] ∧
        T.tradeType = py_upper "XX" ++ " " ++ "ROCT PUT" ∧
        T.commissionPerShare = get_commission_rate
          ({ initState with commissions := [⟨1, 1, 0⟩] } : DBState).commissions 1 5 ∧
        T.netCreditPerShare = round_standard ((5/2 : ℚ) - get_commission_rate
          ({ initState with commissions := [⟨1, 1, 0⟩] } : DBState).commissions 1 5) 5 ∧
        T.riskCapitalPerShare = some (round_standard (round_standard (245 : ℚ) 2 -
          round_standard ((5/2 : ℚ) - get_commission_rate
            ({ initState with commissions := [⟨1, 1, 0⟩] } : DBState).commissions 1 5) 5) 2) ∧
        T.marginCapital = (if 0 < round_standard (245 : ℚ) 2 then
          some ((1 : ℚ) * 100 * (round_standard (245 : ℚ) 2 -
            round_standard ((5/2 : ℚ) - get_commission_rate
              ({ initState with commissions := [⟨1, 1, 0⟩] } : DBState).commissions 1 5) 5))
        else none)) ∧
    round_standard ((5/2 : ℚ) - 1) 5 = 3/2 ∧
    round_standard ((245 : ℚ) - 3/2) 2 = 487/2 ∧
    (1 : ℚ) * 100 * ((245 : ℚ) - 3/2) = 24350 :=
  ⟨put_trade_derived_fields { initState with commissions := [⟨1, 1, 0⟩] }
      "XX" 5 30 1 (5/2) 245 245 1 ⟨1, "ROCT PUT", true⟩ rfl,
    by with_unfolding_all rfl, by with_unfolding_all rfl,
    by with_unfolding_all rfl⟩

/-! ## First ledger entry of a scope -/

/-- C9: when a credit-option open is the first-ever cost-basis event for
its (account, ticker) scope, the created entry seeds the running basis
directly from the amount delta `−(premium × contracts × 100)`, stores
running shares 0, and stores basis-per-share equal to the amount delta
itself rather than dividing by the zero running shares. -/
theorem first_options_entry_seed (s : DBState) (tickerRaw : String)
    (td ed n : ℕ) (prem cp strikeRaw : ℚ) (acct : ℕ) (row : TradeTypeRow)
    (hfind : s.tradeTypes.find? (fun r => r.typeName = "ROCT PUT") = some row)
    (hempty : scopeEntries s.costBasis acct (py_upper tickerRaw) = [])
    (hfresh : ∀ e ∈ s.costBasis, e.tradeId ≠ some s.nextId) :
    ∃ st, add_trade s tickerRaw td ed n prem cp strikeRaw "ROCT PUT" acct =
        some st ∧
      ∃ e, st.1.costBasis = s.costBasis ++ [e] ∧
        e.totalAmount = -(prem * (n : ℚ) * 100) ∧
        e.runningBasis = -(prem * (n : ℚ) * 100) ∧
        e.runningShares = 0 ∧
        e.basisPerShare = -(prem * (n : ℚ) * 100) ∧
        e.shares = 0 := by
  rw [add_trade, hfind]
  have hc1 : ("ROCT PUT" : String) = "ROCT PUT" ∨
      ("ROCT PUT" : String) = "ROCT CALL" := Or.inl rfl
  have hc2 : ¬((py_upper tickerRaw ++ " " ++ "ROCT PUT") = "BTO" ∨
      (py_upper tickerRaw ++ " " ++ "ROCT PUT") = "STC") := by
    rintro (h | h)
    · exact prefixed_put_ne_BTO _ h
    · exact prefixed_put_ne_STC _ h
  rw [if_pos hc1]
  simp only [if_neg hc2]
  refine ⟨_, rfl, ?_⟩
  simp only [create_options_cost_basis_entry]
  rw [hempty]
  simp only [lastCostBasis, List.map_append]
  have hold : ∀ x ∈ s.costBasis,
      (fun e : CostBasisEntry =>
        if decide (e.tradeId = some s.nextId ∧
            e.tickerId = py_upper tickerRaw ∧ e.transactionDate = td ∧
            e.cashFlowId = none) then
          { e with cashFlowId := some (s.nextId + 1 + 1) } else e) x = id x := by
    intro x hx
    have : decide (x.tradeId = some s.nextId ∧
        x.tickerId = py_upper tickerRaw ∧ x.transactionDate = td ∧
        x.cashFlowId = none) = false :=
      decide_eq_false (fun hcon => hfresh x hx hcon.1)
    simp only [this, Bool.false_eq_true, if_false, id]
  rw [List.map_congr_left hold, List.map_id]
  simp only [List.map_cons, List.map_nil]
  simp only [eq_self_iff_true, and_self, and_true, true_and, decide_True,
    if_true, ite_true]
  refine ⟨_, rfl, ?_, ?_, ?_, ?_, ?_⟩ <;> rfl

/-- Witness for C9: the spec's example — a first premium entry with amount
delta −250.00 (premium 2.50, one contract) yields running basis −250,
running shares 0, basis-per-share −250. -/
theorem first_options_entry_seed_witness :
    (∃ st, add_trade initState "XX" 5 30 1 (5/2) 0 10 "ROCT PUT" 1 = some st ∧
      ∃ e, st.1.costBasis = initState.costBasis ++ [e] ∧
        e.totalAmount = -((5/2 : ℚ) * (1 : ℚ) * 100) ∧
        e.runningBasis = -((5/2 : ℚ) * (1 : ℚ) * 100) ∧
        e.runningShares = 0 ∧
        e.basisPerShare = -((5/2 : ℚ) * (1 : ℚ) * 100) ∧
        e.shares = 0) ∧
    -((5/2 : ℚ) * (1 : ℚ) * 100) = -250 :=
  ⟨first_options_entry_seed initState "XX" 5 30 1 (5/2) 0 10 1
      ⟨1, "ROCT PUT", true⟩ rfl rfl (by intro e he; cases he),
    by with_unfolding_all rfl⟩

/-! ## Trade-type prefixing and the cash-flow branch at creation -/

theorem py_round_eq_self (x : ℚ) (d : ℕ) (h : (x * 10 ^ d).den = 1) :
    py_round x d = x := by
  obtain ⟨k, hk⟩ : ∃ k : ℤ, x * 10 ^ d = (k : ℚ) :=
    ⟨(x * 10 ^ d).num, by
      conv_lhs => rw [← Rat.num_div_den (x * 10 ^ d)]
      rw [h]
      simp⟩
  have hx : x = (k : ℚ) / 10 ^ d := by
    rw [eq_div_iff (by positivity : ((10 : ℚ) ^ d) ≠ 0)]
    exact hk
  simp only [py_round]
  rw [hk, Int.floor_intCast]
  rw [if_neg (by norm_num : ¬((k : ℚ) - (k : ℤ) = 1 / 2))]
  rw [add_comm, Int.floor_add_int]
  have : ⌊(1 / 2 : ℚ)⌋ = 0 := by norm_num
  rw [this, hx]
  norm_num

theorem isPutStyle_ROCTPUT : ("ROCT PUT" : String) = "ROCT PUT" ∨
    ("ROCT PUT" : String) = "ROCT CALL" := Or.inl rfl

theorem isPutStyle_ROCTCALL : ("ROCT CALL" : String) = "ROCT PUT" ∨
    ("ROCT CALL" : String) = "ROCT CALL" := Or.inr rfl

theorem seeded_find_prefixed_put_none (tk : String) :
    seededTradeTypes.find?
      (fun r => r.typeName = tk ++ " " ++ "ROCT PUT") = none := by
  have h1 : decide (("ROCT PUT" : String) = tk ++ " " ++ "ROCT PUT") = false :=
    decide_eq_false (fun h => prefixed_put_ne_ROCTPUT tk h.symm)
  have h2 : decide (("ROCT CALL" : String) = tk ++ " " ++ "ROCT PUT") = false :=
    decide_eq_false (fun h => prefixed_put_ne_ROCTCALL tk h.symm)
  have h3 : decide (("BTO" : String) = tk ++ " " ++ "ROCT PUT") = false :=
    decide_eq_false (fun h => prefixed_put_ne_BTO tk h.symm)
  have h4 : decide (("STC" : String) = tk ++ " " ++ "ROCT PUT") = false :=
    decide_eq_false (fun h => prefixed_put_ne_STC tk h.symm)
  simp only [seededTradeTypes, List.find?, h1, h2, h3, h4]

theorem seeded_find_prefixed_call_none (tk : String) :
    seededTradeTypes.find?
      (fun r => r.typeName = tk ++ " " ++ "ROCT CALL") = none := by
  have h1 : decide (("ROCT PUT" : String) = tk ++ " " ++ "ROCT CALL") = false :=
    decide_eq_false (fun h => prefixed_call_ne_ROCTPUT tk h.symm)
  have h2 : decide (("ROCT CALL" : String) = tk ++ " " ++ "ROCT CALL") = false :=
    decide_eq_false (fun h => prefixed_call_ne_ROCTCALL tk h.symm)
  have h3 : decide (("BTO" : String) = tk ++ " " ++ "ROCT CALL") = false :=
    decide_eq_false (fun h => prefixed_call_ne_BTO tk h.symm)
  have h4 : decide (("STC" : String) = tk ++ " " ++ "ROCT CALL") = false :=
    decide_eq_false (fun h => prefixed_call_ne_STC tk h.symm)
  simp only [seededTradeTypes, List.find?, h1, h2, h3, h4]

/-- C10 (amended): with only the four seeded trade types, every options
trade created through `add_trade` stores its trade type prefixed with the
upper-cased ticker symbol; the `requires_contracts` lookup by that prefixed
name finds no row; consequently the single cash-flow entry recorded for
the trade has transaction type `PREMIUM_CREDIT` — never `SELL PUT` or
`SELL CALL` — with amount `premium × contracts × 100` rounded to 2
decimals (exactly `premium × contracts × 100` whenever that product has at
most two decimal places). -/
theorem options_cash_flow_branch (s : DBState) (tickerRaw : String)
    (td ed n : ℕ) (prem cp strikeRaw : ℚ) (acct : ℕ) (b : String)
    (hb : b = "ROCT PUT" ∨ b = "ROCT CALL")
    (hseed : s.tradeTypes = seededTradeTypes) :
    s.tradeTypes.find?
      (fun r => r.typeName = py_upper tickerRaw ++ " " ++ b) = none ∧
    ∃ st, add_trade s tickerRaw td ed n prem cp strikeRaw b acct = some st ∧
      (∃ T, st.1.trades = s.trades ++ [T] ∧
        T.tradeType = py_upper tickerRaw ++ " " ++ b) ∧
      ∃ cf, st.1.cashFlows = s.cashFlows ++ [cf] ∧
        cf.transactionType = "PREMIUM_CREDIT" ∧
        cf.amount = py_round (prem * (n : ℚ) * 100) 2 ∧
        ((prem * (n : ℚ) * 100 * 10 ^ 2).den = 1 →
          cf.amount = prem * (n : ℚ) * 100) := by
  rcases hb with rfl | rfl
  · have hnone : s.tradeTypes.find?
        (fun r => r.typeName = py_upper tickerRaw ++ " " ++ "ROCT PUT") =
        none := by
      rw [hseed]
      exact seeded_find_prefixed_put_none (py_upper tickerRaw)
    refine ⟨hnone, ?_⟩
    rw [add_trade, hseed]
    rw [show seededTradeTypes.find?
        (fun r => r.typeName = ("ROCT PUT" : String)) =
      some ⟨1, "ROCT PUT", true⟩ from rfl]
    rw [if_pos isPutStyle_ROCTPUT]
    have hc2 : ¬((py_upper tickerRaw ++ " " ++ "ROCT PUT") = "BTO" ∨
        (py_upper tickerRaw ++ " " ++ "ROCT PUT") = "STC") := by
      rintro (h | h)
      · exact prefixed_put_ne_BTO _ h
      · exact prefixed_put_ne_STC _ h
    simp only [if_neg hc2]
    rw [seeded_find_prefixed_put_none (py_upper tickerRaw)]
    rw [if_neg (prefixed_put_ne_BTO (py_upper tickerRaw))]
    exact ⟨_, rfl, ⟨_, rfl, rfl⟩,
      ⟨_, rfl, rfl, rfl, fun hden => py_round_eq_self _ 2 hden⟩⟩
  · have hnone : s.tradeTypes.find?
        (fun r => r.typeName = py_upper tickerRaw ++ " " ++ "ROCT CALL") =
        none := by
      rw [hseed]
      exact seeded_find_prefixed_call_none (py_upper tickerRaw)
    refine ⟨hnone, ?_⟩
    rw [add_trade, hseed]
    rw [show seededTradeTypes.find?
        (fun r => r.typeName = ("ROCT CALL" : String)) =
      some ⟨2, "ROCT CALL", true⟩ from rfl]
    rw [if_pos isPutStyle_ROCTCALL]
    have hc2 : ¬((py_upper tickerRaw ++ " " ++ "ROCT CALL") = "BTO" ∨
        (py_upper tickerRaw ++ " " ++ "ROCT CALL") = "STC") := by
      rintro (h | h)
      · exact prefixed_call_ne_BTO _ h
      · exact prefixed_call_ne_STC _ h
    simp only [if_neg hc2]
    rw [seeded_find_prefixed_call_none (py_upper tickerRaw)]
    rw [if_neg (prefixed_call_ne_BTO (py_upper tickerRaw))]
    exact ⟨_, rfl, ⟨_, rfl, rfl⟩,
      ⟨_, rfl, rfl, rfl, fun hden => py_round_eq_self _ 2 hden⟩⟩

/-- C10 counterexample to the unrounded amount: an options trade created
with the sub-cent premium 0.00001 records a cash flow of amount 0, while
`premium × contracts × 100 = 0.001`. -/
theorem options_cash_flow_amount_counterexample :
    ((add_trade initState "XX" 5 30 1 (1/100000) 0 10 "ROCT PUT" 1).map
      (fun st => st.1.cashFlows.map (fun c =>
        (c.transactionType, c.amount)))) = some [("PREMIUM_CREDIT", 0)] ∧
    (1/100000 : ℚ) * (1 : ℚ) * 100 = 1/1000 ∧ (0 : ℚ) ≠ 1/1000 := by
  refine ⟨?_, ?_, ?_⟩
  · with_unfolding_all rfl
  · with_unfolding_all rfl
  · with_unfolding_all decide

/-- Witness for C10 at a concrete creation: premium 2.50, one contract —
the recorded cash flow is a `PREMIUM_CREDIT` of 250.00. -/
theorem options_cash_flow_branch_witness :
    (initState.tradeTypes.find?
      (fun r => r.typeName = py_upper "XX" ++ " " ++ "ROCT PUT") = none ∧
    ∃ st, add_trade initState "XX" 5 30 1 (5/2) 0 10 "ROCT PUT" 1 = some st ∧
      (∃ T, st.1.trades = initState.trades ++ [T] ∧
        T.tradeType = py_upper "XX" ++ " " ++ "ROCT PUT") ∧
      ∃ cf, st.1.cashFlows = initState.cashFlows ++ [cf] ∧
        cf.transactionType = "PREMIUM_CREDIT" ∧
        cf.amount = py_round ((5/2 : ℚ) * (1 : ℚ) * 100) 2 ∧
        (((5/2 : ℚ) * (1 : ℚ) * 100 * 10 ^ 2).den = 1 →
          cf.amount = (5/2 : ℚ) * (1 : ℚ) * 100)) ∧
    ((5/2 : ℚ) * (1 : ℚ) * 100 * 10 ^ 2).den = 1 ∧
    (5/2 : ℚ) * (1 : ℚ) * 100 = 250 :=
  ⟨options_cash_flow_branch initState "XX" 5 30 1 (5/2) 0 10 1 "ROCT PUT"
      (Or.inl rfl) rfl,
    by with_unfolding_all rfl, by with_unfolding_all rfl⟩

/-! ## Trade deletion -/

/-- C8: `delete_trade` removes the trade and its cost-basis rows but does
NOT remove the trade's cash-flow rows.  Evaluated at a reachable state: a
freshly created options trade (id 1) with one cost-basis row and one
cash-flow row is deleted; afterwards the trades and cost-basis tables are
empty, yet the cash-flow row referencing trade 1 is still present — an
orphan, contradicting the specified cascade delete. -/
theorem delete_trade_orphan_cash_flow :
    ((add_trade initState "XX" 5 30 1 2 0 10 "ROCT PUT" 1).bind
      (fun st => delete_trade st.1 st.2)).map
      (fun s => (s.trades.length, s.costBasis.length,
        s.cashFlows.map (fun c => c.tradeId))) = some (0, 0, [some 1]) := by
  with_unfolding_all rfl

/-! ## Assignment transition -/

theorem startswith_assigned (a b : String) :
    py_startswith ("ASSIGNED " ++ a ++ b) "ASSIGNED" = true := by
  rw [py_startswith, leadsWith_iff]
  refine ⟨(" " : String).data ++ a.data ++ b.data, ?_⟩
  rw [String.data_append, String.data_append]
  have : ("ASSIGNED " : String).data =
      ("ASSIGNED" : String).data ++ (" " : String).data := rfl
  rw [this]
  simp

/-- C7: transitioning an open trade to `assigned` appends exactly one
cost-basis entry — with `shares_delta = +contracts×100` and
`amount_delta = +strike×shares` under the code's PUT classification, and
the negated deltas otherwise (CALL) — and exactly one cash-flow entry of
kind `ASSIGNMENT`, linking the entry to the cash flow; and transitioning a
trade that is already `assigned` to `assigned` again is accepted as a
no-op that appends no ledger or cash-flow row. -/
theorem assign_transition (s : DBState) (today : ℕ) (t : Trade)
    (hfind : s.trades.find? (fun x => x.id = t.id) = some t)
    (hopen : t.tradeStatus = "open")
    (hnone : ∀ e ∈ s.costBasis, ¬(e.tradeId = some t.id ∧
      py_startswith e.description "ASSIGNED" = true)) :
    (∃ st cf e, update_trade_status s today t.id "assigned" = some (st, none) ∧
      st.cashFlows = s.cashFlows ++ [cf] ∧
      cf.transactionType = "ASSIGNMENT" ∧
      cf.tradeId = some t.id ∧
      st.costBasis = s.costBasis ++ [e] ∧
      e.tradeId = some t.id ∧
      e.cashFlowId = some cf.rowid ∧
      e.transactionDate = t.expirationDate ∧
      e.shares = (if py_in "PUT" (py_upper t.tradeType) ||
          py_in "ROP" (py_upper t.tradeType) then
          ((t.numContracts * 100 : ℕ) : ℤ)
        else -((t.numContracts * 100 : ℕ) : ℤ)) ∧
      e.totalAmount = (if py_in "PUT" (py_upper t.tradeType) ||
          py_in "ROP" (py_upper t.tradeType) then
          t.strikePrice * ((t.numContracts * 100 : ℕ) : ℚ)
        else -(t.strikePrice * ((t.numContracts * 100 : ℕ) : ℚ)))) ∧
    (∀ (s2 : DBState) (u : Trade),
      s2.trades.find? (fun x => x.id = u.id) = some u →
      u.tradeStatus = "assigned" →
      ∃ st2, update_trade_status s2 today u.id "assigned" = some (st2, none) ∧
        st2.costBasis = s2.costBasis ∧ st2.cashFlows = s2.cashFlows) := by
  constructor
  · rw [update_trade_status, hfind]
    dsimp only
    rw [if_pos (⟨rfl, by rw [hopen]; decide⟩ :
      ("assigned" : String) = "assigned" ∧ t.tradeStatus ≠ "assigned")]
    simp only [create_assigned_cost_basis_entry]
    have hfilter : s.costBasis.filter (fun e =>
        decide (e.tradeId = some t.id ∧ e.accountId = t.accountId ∧
          e.tickerId = t.tickerId) &&
        py_startswith e.description "ASSIGNED") = [] := by
      refine List.filter_eq_nil_iff.mpr (fun e he hcon => ?_)
      rw [Bool.and_eq_true] at hcon
      exact hnone e he ⟨(of_decide_eq_true hcon.1).1, hcon.2⟩
    rw [hfilter]
    simp only [List.length_nil, lt_self_iff_false, if_false]
    have hold : ∀ x ∈ s.costBasis,
        (fun e : CostBasisEntry =>
          if decide (e.tradeId = some t.id ∧ e.accountId = t.accountId ∧
                e.tickerId = t.tickerId ∧
                e.transactionDate = t.expirationDate) &&
              py_startswith e.description "ASSIGNED" &&
              decide (e.cashFlowId = none) then
            { e with cashFlowId := some (s.nextId + 1) } else e) x = id x := by
      intro x hx
      have hx2 : (decide (x.tradeId = some t.id ∧ x.accountId = t.accountId ∧
            x.tickerId = t.tickerId ∧ x.transactionDate = t.expirationDate) &&
          py_startswith x.description "ASSIGNED" &&
          decide (x.cashFlowId = none)) = false := by
        rcases hcon : decide (x.tradeId = some t.id ∧
            x.accountId = t.accountId ∧ x.tickerId = t.tickerId ∧
            x.transactionDate = t.expirationDate) with _ | _
        · simp
        · rcases hsw : py_startswith x.description "ASSIGNED" with _ | _
          · simp [hsw]
          · exact absurd ⟨(of_decide_eq_true hcon).1, hsw⟩ (hnone x hx)
      simp only [hx2, Bool.false_eq_true, if_false, id]
    rw [List.map_append, List.map_congr_left hold, List.map_id]
    simp only [List.map_cons, List.map_nil]
    have hdesc : py_startswith
        ((if (py_in "PUT" (py_upper t.tradeType) ||
            py_in "ROP" (py_upper t.tradeType)) = true then
          (("ASSIGNED " ++ toString t.expirationDate ++ " PUT" : String),
           ((t.numContracts * 100 : ℕ) : ℤ), t.strikePrice,
           t.strikePrice * ((t.numContracts * 100 : ℕ) : ℚ))
        else
          (("ASSIGNED " ++ toString t.expirationDate ++ " CALL" : String),
           -((t.numContracts * 100 : ℕ) : ℤ), t.strikePrice,
           -(t.strikePrice * ((t.numContracts * 100 : ℕ) : ℚ)))).1)
        "ASSIGNED" = true := by
      by_cases hc : (py_in "PUT" (py_upper t.tradeType) ||
          py_in "ROP" (py_upper t.tradeType)) = true
      · rw [if_pos hc]
        exact startswith_assigned _ _
      · rw [if_neg hc]
        exact startswith_assigned _ _
    simp only [eq_self_iff_true, and_self, and_true, true_and, decide_True,
      hdesc, Bool.and_self, Bool.true_and, Bool.and_true, if_true, ite_true]
    refine ⟨_, _, _, rfl, rfl, rfl, rfl, rfl, rfl, rfl, rfl, ?_, ?_⟩
    · by_cases hc : (py_in "PUT" (py_upper t.tradeType) ||
          py_in "ROP" (py_upper t.tradeType)) = true
      · rw [if_pos hc, if_pos hc]
      · rw [if_neg hc, if_neg hc]
    · by_cases hc : (py_in "PUT" (py_upper t.tradeType) ||
          py_in "ROP" (py_upper t.tradeType)) = true
      · rw [if_pos hc, if_pos hc]
      · rw [if_neg hc, if_neg hc]
  · intro s2 u hfind2 hstat
    rw [update_trade_status, hfind2]
    dsimp only
    rw [if_neg (fun h : ("assigned" : String) = "assigned" ∧
      u.tradeStatus ≠ "assigned" => h.2 hstat)]
    rw [if_neg (fun h : u.tradeStatus = "assigned" ∧
      ("assigned" : String) ≠ "assigned" => h.2 rfl)]
    rw [if_neg (fun h : ("assigned" : String) = "roll" ∧
      u.tradeStatus = "open" => absurd h.1 (by decide))]
    exact ⟨_, rfl, rfl, rfl⟩

/-- Witness for C7 at the sample PUT trade: assigning it appends the single
entry (+100 shares, +1000 basis, dated at expiration, linked to cash flow
3) and the single `ASSIGNMENT` cash flow. -/
theorem assign_transition_witness :
    (∃ st cf e,
      update_trade_status sampleState 12 sampleOpenPut.id "assigned" =
        some (st, none) ∧
      st.cashFlows = sampleState.cashFlows ++ [cf] ∧
      cf.transactionType = "ASSIGNMENT" ∧
      cf.tradeId = some sampleOpenPut.id ∧
      st.costBasis = sampleState.costBasis ++ [e] ∧
      e.tradeId = some sampleOpenPut.id ∧
      e.cashFlowId = some cf.rowid ∧
      e.transactionDate = sampleOpenPut.expirationDate ∧
      e.shares = (if py_in "PUT" (py_upper sampleOpenPut.tradeType) ||
          py_in "ROP" (py_upper sampleOpenPut.tradeType) then
          ((sampleOpenPut.numContracts * 100 : ℕ) : ℤ)
        else -((sampleOpenPut.numContracts * 100 : ℕ) : ℤ)) ∧
      e.totalAmount = (if py_in "PUT" (py_upper sampleOpenPut.tradeType) ||
          py_in "ROP" (py_upper sampleOpenPut.tradeType) then
          sampleOpenPut.strikePrice *
            ((sampleOpenPut.numContracts * 100 : ℕ) : ℚ)
        else -(sampleOpenPut.strikePrice *
            ((sampleOpenPut.numContracts * 100 : ℕ) : ℚ)))) ∧
    ((update_trade_status sampleState 12 1 "assigned").map
      (fun p => (p.2, p.1.costBasis.map (fun e =>
        (e.rowid, e.shares, e.totalAmount, e.cashFlowId, e.transactionDate)),
        p.1.cashFlows.map (fun c => (c.rowid, c.transactionType))))) =
      some (none, [(2, 100, 1000, some 3, 30)], [(3, "ASSIGNMENT")]) :=
  ⟨(assign_transition sampleState 12 sampleOpenPut rfl rfl
      (fun e he => absurd he (List.not_mem_nil e))).1,
    by with_unfolding_all rfl⟩

/-! ## Roll transition -/

theorem startswith_append_left (a b p : String)
    (h : py_startswith a p = true) : py_startswith (a ++ b) p = true := by
  rw [py_startswith, leadsWith_iff] at h ⊢
  obtain ⟨t, ht⟩ := h
  exact ⟨t ++ b.data, by rw [String.data_append, ht, List.append_assoc]⟩

theorem startswith_diagonal_core (r : String) :
    py_startswith ("SELL -" ++ toString (1 : ℕ) ++ " DIAGONAL " ++ r)
      "SELL -1 DIAGONAL" = true :=
  startswith_append_left ("SELL -" ++ toString (1 : ℕ) ++ " DIAGONAL ") r
    "SELL -1 DIAGONAL" (by decide)

theorem py_drop_prefixed (tk b : String) :
    py_drop (tk ++ " " ++ b) (tk.data.length + 1) = b := by
  refine String.ext_data ?_
  show (tk ++ " " ++ b).data.drop (tk.data.length + 1) = b.data
  rw [prefixed_data, ← List.append_assoc]
  refine List.drop_left' ?_
  simp

theorem startswith_prefixed_space (tk b : String) :
    py_startswith (tk ++ " " ++ b) (tk ++ " ") = true := by
  refine py_startswith_of_append (tk ++ " ") b _ ?_
  rw [String.data_append]

/-- C6 counterexample to "constructed only after the child's strike and
credit have been populated": rolling an open PUT immediately creates both
the child (with unpopulated placeholder strike 0 and credit 0) and the
roll-diagonal ledger entry (amount 0) in the same transition. -/
theorem roll_entry_before_population_counterexample :
    ((update_trade_status sampleState 12 1 "roll").map (fun p =>
      (p.2,
       p.1.trades.map (fun t =>
         (t.id, t.tradeStatus, t.strikePrice, t.creditDebit, t.tradeParentId)),
       p.1.costBasis.map (fun e => (e.tradeId, e.totalAmount,
         py_startswith e.description "SELL -1 DIAGONAL"))))) =
    some (some 2, [(1, "roll", 10, 2, none), (2, "open", 0, 0, some 1)],
      [(some 2, 0, true)]) := by
  with_unfolding_all rfl

/-- C6 (amended): rolling an open trade creates exactly one child trade
with status `open`, the same account/ticker/trade-type, `parent_trade`
pointing at the original, and placeholder economics (quantity 1, strike 0,
credit 0); the roll-diagonal ledger entry (amount delta 0, shares delta 0)
is constructed immediately in the same transition — before the child's
strike and credit are populated — and carries the `SELL -1 DIAGONAL`
description; afterwards no field edit ever appends a second entry for the
child (the diagonal-description guard skips creation), and any entry a
field edit appends belongs to the edited trade. -/
theorem roll_transition (s : DBState) (today : ℕ) (t : Trade) (b : String)
    (hfind : s.trades.find? (fun x => x.id = t.id) = some t)
    (hopen : t.tradeStatus = "open")
    (hb : b = "ROCT PUT" ∨ b = "ROCT CALL")
    (hform : t.tradeType = t.tickerId ++ " " ++ b)
    (htick : t.tickerId ≠ "") :
    (∃ st C E,
      update_trade_status s today t.id "roll" = some (st, some s.nextId) ∧
      st.trades = (s.trades.map (fun x => if x.id = t.id then
        { x with tradeStatus := "roll" } else x)) ++ [C] ∧
      C.id = s.nextId ∧ C.tradeStatus = "open" ∧
      C.accountId = t.accountId ∧ C.tickerId = t.tickerId ∧
      C.tradeType = t.tradeType ∧ C.tradeParentId = some t.id ∧
      C.numContracts = 1 ∧ C.strikePrice = 0 ∧ C.creditDebit = 0 ∧
      st.costBasis = s.costBasis ++ [E] ∧ E.tradeId = some s.nextId ∧
      E.totalAmount = 0 ∧ E.shares = 0 ∧
      py_startswith E.description "SELL -1 DIAGONAL" = true) ∧
    (∀ (s2 : DBState) (tradeId : ℕ) (field : String) (v : FieldValue)
        (st2 : DBState),
      hasDiagonalEntry s2.costBasis tradeId = true →
      update_trade_field s2 today tradeId field v = some st2 →
      st2.costBasis = s2.costBasis) ∧
    (∀ (s2 : DBState) (tradeId : ℕ) (field : String) (v : FieldValue)
        (st2 : DBState),
      update_trade_field s2 today tradeId field v = some st2 →
      st2.costBasis = s2.costBasis ∨
        ∃ E2, st2.costBasis = s2.costBasis ++ [E2] ∧
          E2.tradeId = some tradeId) := by
  refine ⟨?_, ?_, ?_⟩
  · rw [update_trade_status, hfind]
    dsimp only
    rw [if_neg (fun h : ("roll" : String) = "assigned" ∧
      t.tradeStatus ≠ "assigned" => absurd h.1 (by decide))]
    rw [if_neg (fun h : t.tradeStatus = "assigned" ∧
      ("roll" : String) ≠ "assigned" => absurd (hopen ▸ h.1) (by decide))]
    rw [if_pos (⟨rfl, hopen⟩ :
      ("roll" : String) = "roll" ∧ t.tradeStatus = "open")]
    rw [hform]
    rw [if_pos (⟨htick, startswith_prefixed_space t.tickerId b⟩ :
      t.tickerId ≠ "" ∧
        py_startswith (t.tickerId ++ " " ++ b) (t.tickerId ++ " ") = true)]
    rw [py_drop_prefixed]
    rw [if_pos hb]
    simp only [create_roll_diagonal_cost_basis_entry]
    refine ⟨_, _, _, rfl, rfl, rfl, rfl, rfl, rfl, rfl, rfl, rfl, rfl, rfl,
      rfl, rfl, ?_, ?_, ?_⟩
    · norm_num
    · rfl
    · by_cases h1 : (py_in "PUT" (t.tickerId ++ " " ++ b) ||
          py_in "ROP" (t.tickerId ++ " " ++ b)) = true
      · rw [if_pos h1]
        repeat first
          | exact (by decide)
          | apply startswith_append_left
      · rw [if_neg h1]
        by_cases h2 : (py_in "CALL" (t.tickerId ++ " " ++ b) ||
            py_in "ROC" (t.tickerId ++ " " ++ b)) = true
        · rw [if_pos h2]
          repeat first
            | exact (by decide)
            | apply startswith_append_left
        · rw [if_neg h2]
          repeat first
            | exact (by decide)
            | apply startswith_append_left
  · intro s2 tradeId field v st2 hdiag heq
    simp only [update_trade_field] at heq
    repeat' split at heq
    all_goals first
      | exact Option.noConfusion heq
      | (cases heq; rfl)
      | (cases heq; exact absurd hdiag (by assumption))
  · intro s2 tradeId field v st2 heq
    simp only [update_trade_field] at heq
    repeat' split at heq
    all_goals first
      | exact Option.noConfusion heq
      | (cases heq; exact Or.inl rfl)
      | (cases heq; exact Or.inr ⟨_, rfl, rfl⟩)

/-- Witness for C6 at the sample state: rolling the open PUT creates the
child trade and the zero-amount roll-diagonal ledger entry immediately, and
a concrete edit chain on the child (expiration, strike, then credit) never
appends a second entry — the diagonal guard keeps the ledger at one row. -/
theorem roll_transition_witness :
    (∃ st C E,
      update_trade_status sampleState 12 sampleOpenPut.id "roll" =
        some (st, some sampleState.nextId) ∧
      st.trades = (sampleState.trades.map (fun x =>
        if x.id = sampleOpenPut.id then
          { x with tradeStatus := "roll" } else x)) ++ [C] ∧
      C.id = sampleState.nextId ∧ C.tradeStatus = "open" ∧
      C.accountId = sampleOpenPut.accountId ∧
      C.tickerId = sampleOpenPut.tickerId ∧
      C.tradeType = sampleOpenPut.tradeType ∧
      C.tradeParentId = some sampleOpenPut.id ∧
      C.numContracts = 1 ∧ C.strikePrice = 0 ∧ C.creditDebit = 0 ∧
      st.costBasis = sampleState.costBasis ++ [E] ∧
      E.tradeId = some sampleState.nextId ∧
      E.totalAmount = 0 ∧ E.shares = 0 ∧
      py_startswith E.description "SELL -1 DIAGONAL" = true) ∧
    ((update_trade_status sampleState 12 1 "roll").bind (fun p =>
      (update_trade_field p.1 12 2 "expiration_date" (.date 30)).bind
        (fun s1 =>
      (update_trade_field s1 12 2 "strike_price" (.num 9)).bind (fun s2 =>
      update_trade_field s2 12 2 "credit_debit" (.num 1))))).map
      (fun s => (s.costBasis.length,
        s.trades.map (fun t =>
          (t.id, t.strikePrice, t.creditDebit, t.expirationDate)))) =
      some (1, [(1, 10, 2, 30), (2, 9, 1, 30)]) :=
  ⟨(roll_transition sampleState 12 sampleOpenPut "ROCT PUT" rfl rfl
      (Or.inl rfl) (by decide) (by decide)).1,
    by with_unfolding_all rfl⟩

/-! ## Running-total ledger invariant -/

theorem scopeEntries_append (l : List CostBasisEntry) (e : CostBasisEntry)
    (a : ℕ) (tk : String) :
    scopeEntries (l ++ [e]) a tk =
      scopeEntries l a tk ++ if inScope a tk e then [e] else [] := by
  simp only [scopeEntries, List.filter_append, List.filter]
  rcases h : inScope a tk e with _ | _
  · rw [if_neg Bool.false_ne_true]
  · rw [if_pos rfl]

theorem sumShares_append (l m : List CostBasisEntry) :
    sumShares (l ++ m) = sumShares l + sumShares m := by
  simp [sumShares]

theorem sumAmount_append (l m : List CostBasisEntry) :
    sumAmount (l ++ m) = sumAmount l + sumAmount m := by
  simp [sumAmount]

theorem lastCostBasis_eq_none (l : List CostBasisEntry)
    (h : lastCostBasis l = none) : l = [] := by
  cases l with
  | nil => rfl
  | cons e rest =>
    rw [lastCostBasis] at h
    rcases h2 : lastCostBasis rest with _ | b
    · rw [h2] at h
      exact Option.noConfusion h
    · rw [h2] at h
      dsimp only at h
      by_cases hn : cbNewer e b = true
      · rw [if_pos hn] at h
        exact Option.noConfusion h
      · rw [if_neg hn] at h
        exact Option.noConfusion h

theorem lastCostBasis_append_newest (l : List CostBasisEntry)
    (e : CostBasisEntry) (h : ∀ x ∈ l, cbNewer x e = true) :
    lastCostBasis (l ++ [e]) = some e := by
  induction l with
  | nil => rfl
  | cons x xs ih =>
    rw [List.cons_append, lastCostBasis,
      ih (fun y hy => h y (List.mem_cons_of_mem x hy))]
    dsimp only
    rw [if_pos (h x (List.mem_cons_self x xs))]

theorem scopeEntries_map_withCashFlowId (l : List CostBasisEntry)
    (g : CostBasisEntry → Option ℕ) (a : ℕ) (tk : String) :
    scopeEntries (l.map (withCashFlowId g)) a tk =
      (scopeEntries l a tk).map (withCashFlowId g) := by
  induction l with
  | nil => rfl
  | cons x xs ih =>
    simp only [List.map_cons, scopeEntries, List.filter] at ih ⊢
    rcases h : inScope a tk x with _ | _
    · have h2 : inScope a tk (withCashFlowId g x) = false := h
      rw [h2, ih]
    · have h2 : inScope a tk (withCashFlowId g x) = true := h
      rw [h2, ih, List.map_cons]

theorem lastCostBasis_map_withCashFlowId (l : List CostBasisEntry)
    (g : CostBasisEntry → Option ℕ) :
    lastCostBasis (l.map (withCashFlowId g)) =
      (lastCostBasis l).map (withCashFlowId g) := by
  induction l with
  | nil => rfl
  | cons x xs ih =>
    rw [List.map_cons, lastCostBasis, lastCostBasis, ih]
    rcases h2 : lastCostBasis xs with _ | b
    · rfl
    · dsimp only [Option.map]
      have hn : cbNewer (withCashFlowId g x) (withCashFlowId g b) =
          cbNewer x b := rfl
      rw [hn]
      by_cases hc : cbNewer x b = true
      · rw [if_pos hc, if_pos hc]
      · rw [if_neg hc, if_neg hc]

theorem sumShares_map_withCashFlowId (l : List CostBasisEntry)
    (g : CostBasisEntry → Option ℕ) :
    sumShares (l.map (withCashFlowId g)) = sumShares l := by
  rw [sumShares, sumShares, List.map_map]
  rfl

theorem sumAmount_map_withCashFlowId (l : List CostBasisEntry)
    (g : CostBasisEntry → Option ℕ) :
    sumAmount (l.map (withCashFlowId g)) = sumAmount l := by
  rw [sumAmount, sumAmount, List.map_map]
  rfl

theorem ledgerSumOk_map_withCashFlowId (l : List CostBasisEntry)
    (g : CostBasisEntry → Option ℕ) (h : LedgerSumOk l) :
    LedgerSumOk (l.map (withCashFlowId g)) := by
  intro a tk f hlast
  rw [scopeEntries_map_withCashFlowId, lastCostBasis_map_withCashFlowId] at hlast
  rcases h2 : lastCostBasis (scopeEntries l a tk) with _ | e
  · rw [h2] at hlast
    exact Option.noConfusion hlast
  · rw [h2] at hlast
    cases hlast
    rw [scopeEntries_map_withCashFlowId, sumShares_map_withCashFlowId,
      sumAmount_map_withCashFlowId]
    exact h a tk e h2

theorem bpsOk_map_withCashFlowId (l : List CostBasisEntry)
    (g : CostBasisEntry → Option ℕ) (h : BpsOk l) :
    BpsOk (l.map (withCashFlowId g)) := by
  intro f hf
  obtain ⟨e, he, rfl⟩ := List.mem_map.mp hf
  exact h e he

theorem rowIdsBelow_map_withCashFlowId (l : List CostBasisEntry)
    (g : CostBasisEntry → Option ℕ) (n : ℕ) (h : rowIdsBelow l n) :
    rowIdsBelow (l.map (withCashFlowId g)) n := by
  intro f hf
  obtain ⟨e, he, rfl⟩ := List.mem_map.mp hf
  exact h e he

theorem map_link_eq_withCashFlowId (l : List CostBasisEntry)
    (c : CostBasisEntry → Bool) (v : ℕ) :
    l.map (fun e => if c e then { e with cashFlowId := some v } else e) =
      l.map (withCashFlowId (fun e =>
        if c e then some v else e.cashFlowId)) := by
  refine List.map_congr_left ?_
  intro e _
  by_cases h : c e = true
  · rw [if_pos h, withCashFlowId, if_pos h]
  · rw [if_neg h, withCashFlowId, if_neg h]

theorem bpsOk_filter (l : List CostBasisEntry) (p : CostBasisEntry → Bool)
    (h : BpsOk l) : BpsOk (l.filter p) :=
  fun e he => h e (List.mem_of_mem_filter he)

theorem rowIdsBelow_filter (l : List CostBasisEntry)
    (p : CostBasisEntry → Bool) (n : ℕ) (h : rowIdsBelow l n) :
    rowIdsBelow (l.filter p) n :=
  fun e he => h e (List.mem_of_mem_filter he)

theorem bpsOk_append_single (l : List CostBasisEntry) (e : CostBasisEntry)
    (h : BpsOk l)
    (he : e.basisPerShare = if e.runningShares ≠ 0 then
      e.runningBasis / (e.runningShares : ℚ) else e.runningBasis) :
    BpsOk (l ++ [e]) := by
  intro f hf
  rcases List.mem_append.mp hf with hl | hr
  · exact h f hl
  · rw [List.mem_singleton.mp hr]
    exact he

theorem rowIdsBelow_mono (l : List CostBasisEntry) (n m : ℕ) (hnm : n ≤ m)
    (h : rowIdsBelow l n) : rowIdsBelow l m :=
  fun e he => lt_of_lt_of_le (h e he) hnm

theorem rowIdsBelow_append_single (l : List CostBasisEntry)
    (e : CostBasisEntry) (n : ℕ) (h : rowIdsBelow l n) (he : e.rowid < n) :
    rowIdsBelow (l ++ [e]) n := by
  intro f hf
  rcases List.mem_append.mp hf with hl | hr
  · exact h f hl
  · rw [List.mem_singleton.mp hr]
    exact he

theorem ledgerSumOk_append (l : List CostBasisEntry) (e : CostBasisEntry)
    (hok : LedgerSumOk l)
    (hord : ∀ x ∈ scopeEntries l e.accountId e.tickerId, cbNewer x e = true)
    (hbasis : e.runningBasis =
      (priorRunning l e.accountId e.tickerId).1 + e.totalAmount)
    (hshares : e.runningShares =
      (priorRunning l e.accountId e.tickerId).2 + e.shares) :
    LedgerSumOk (l ++ [e]) := by
  intro a tk f hlast
  rw [scopeEntries_append] at hlast ⊢
  by_cases hsc : inScope a tk e = true
  · obtain ⟨ha1, ha2⟩ : e.accountId = a ∧ e.tickerId = tk :=
      of_decide_eq_true hsc
    subst ha1
    subst ha2
    rw [if_pos hsc] at hlast ⊢
    rw [lastCostBasis_append_newest _ _ hord] at hlast
    cases hlast
    rw [sumShares_append, sumAmount_append]
    have hs1 : sumShares [e] = e.shares := by simp [sumShares]
    have hs2 : sumAmount [e] = e.totalAmount := by simp [sumAmount]
    rw [hs1, hs2, hshares, hbasis, priorRunning]
    rcases h2 : lastCostBasis
        (scopeEntries l e.accountId e.tickerId) with _ | b
    · dsimp only
      have hnil := lastCostBasis_eq_none _ h2
      rw [hnil]
      constructor
      · simp [sumShares]
      · simp [sumAmount]
    · dsimp only
      obtain ⟨hb1, hb2⟩ := hok _ _ b h2
      exact ⟨by rw [hb1], by rw [hb2]⟩
  · rw [if_neg hsc] at hlast ⊢
    rw [List.append_nil] at hlast ⊢
    exact hok a tk f hlast

theorem cbNewer_of_le_lt (x e : CostBasisEntry)
    (hd : x.transactionDate ≤ e.transactionDate) (hr : x.rowid < e.rowid) :
    cbNewer x e = true := by
  rw [cbNewer]
  rcases lt_or_eq_of_le hd with h | h
  · exact decide_eq_true (Or.inl h)
  · exact decide_eq_true (Or.inr ⟨h, hr⟩)

theorem create_cost_basis_entry_invariants (s : DBState) (a : ℕ)
    (tk : String) (tid td : ℕ) (tt : String) (n : ℕ) (pps ta : ℚ)
    (hok : LedgerSumOk s.costBasis) (hbps : BpsOk s.costBasis)
    (hrow : rowIdsBelow s.costBasis s.nextId)
    (hord : ∀ x ∈ scopeEntries s.costBasis a tk, x.transactionDate ≤ td) :
    LedgerSumOk (create_cost_basis_entry s a tk tid td tt n pps ta).costBasis ∧
    BpsOk (create_cost_basis_entry s a tk tid td tt n pps ta).costBasis ∧
    rowIdsBelow (create_cost_basis_entry s a tk tid td tt n pps ta).costBasis
      (create_cost_basis_entry s a tk tid td tt n pps ta).nextId := by
  simp only [create_cost_basis_entry]
  refine ⟨?_, ?_, ?_⟩
  · refine ledgerSumOk_append _ _ hok ?_ ?_ ?_
    · intro x hx
      exact cbNewer_of_le_lt x _ (hord x hx) (hrow x (List.mem_of_mem_filter hx))
    · rfl
    · show (if tt = "STC" then (priorRunning s.costBasis a tk).2 - n
          else (priorRunning s.costBasis a tk).2 + n) =
        (priorRunning s.costBasis a tk).2 +
          (if tt = "STC" then -(n : ℤ) else (n : ℤ))
      by_cases h : tt = "STC"
      · rw [if_pos h, if_pos h, sub_eq_add_neg]
      · rw [if_neg h, if_neg h]
  · exact bpsOk_append_single _ _ hbps rfl
  · refine rowIdsBelow_append_single _ _ _
      (rowIdsBelow_mono _ _ _ (Nat.le_succ _) hrow) (Nat.lt_succ_self _)

theorem create_options_cost_basis_entry_invariants (s : DBState) (a : ℕ)
    (tk : String) (tid td : ℕ) (tt : String) (n : ℕ) (prem strike : ℚ)
    (ed : ℕ)
    (hok : LedgerSumOk s.costBasis) (hbps : BpsOk s.costBasis)
    (hrow : rowIdsBelow s.costBasis s.nextId)
    (hord : ∀ x ∈ scopeEntries s.costBasis a tk, x.transactionDate ≤ td) :
    LedgerSumOk
      (create_options_cost_basis_entry s a tk tid td tt n prem strike
        ed).costBasis ∧
    BpsOk
      (create_options_cost_basis_entry s a tk tid td tt n prem strike
        ed).costBasis ∧
    rowIdsBelow
      (create_options_cost_basis_entry s a tk tid td tt n prem strike
        ed).costBasis
      (create_options_cost_basis_entry s a tk tid td tt n prem strike
        ed).nextId := by
  simp only [create_options_cost_basis_entry]
  rcases h2 : lastCostBasis (scopeEntries s.costBasis a tk) with _ | b
  · dsimp only
    refine ⟨?_, ?_, ?_⟩
    · refine ledgerSumOk_append _ _ hok ?_ ?_ ?_
      · intro x hx
        exact cbNewer_of_le_lt x _ (hord x hx)
          (hrow x (List.mem_of_mem_filter hx))
      · show -(prem * (n : ℚ) * 100) =
          (priorRunning s.costBasis a tk).1 + -(prem * (n : ℚ) * 100)
        rw [priorRunning, h2]
        exact (zero_add _).symm
      · show (0 : ℤ) = (priorRunning s.costBasis a tk).2 + 0
        rw [priorRunning, h2]
        exact (add_zero 0).symm
    · refine bpsOk_append_single _ _ hbps ?_
      show -(prem * (n : ℚ) * 100) =
        if (0 : ℤ) ≠ 0 then
          -(prem * (n : ℚ) * 100) / ((0 : ℤ) : ℚ)
        else -(prem * (n : ℚ) * 100)
      rw [if_neg (fun h => h rfl)]
    · refine rowIdsBelow_append_single _ _ _
        (rowIdsBelow_mono _ _ _ (Nat.le_succ _) hrow) (Nat.lt_succ_self _)
  · dsimp only
    refine ⟨?_, ?_, ?_⟩
    · refine ledgerSumOk_append _ _ hok ?_ ?_ ?_
      · intro x hx
        exact cbNewer_of_le_lt x _ (hord x hx)
          (hrow x (List.mem_of_mem_filter hx))
      · show b.runningBasis + -(prem * (n : ℚ) * 100) =
          (priorRunning s.costBasis a tk).1 + -(prem * (n : ℚ) * 100)
        rw [priorRunning, h2]
      · show b.runningShares + 0 =
          (priorRunning s.costBasis a tk).2 + 0
        rw [priorRunning, h2]
    · exact bpsOk_append_single _ _ hbps rfl
    · refine rowIdsBelow_append_single _ _ _
        (rowIdsBelow_mono _ _ _ (Nat.le_succ _) hrow) (Nat.lt_succ_self _)

theorem create_assigned_cost_basis_entry_invariants (s : DBState) (t : Trade)
    (hok : LedgerSumOk s.costBasis) (hbps : BpsOk s.costBasis)
    (hrow : rowIdsBelow s.costBasis s.nextId)
    (hord : ∀ x ∈ scopeEntries s.costBasis t.accountId t.tickerId,
      x.transactionDate ≤ t.expirationDate) :
    LedgerSumOk (create_assigned_cost_basis_entry s t).costBasis ∧
    BpsOk (create_assigned_cost_basis_entry s t).costBasis ∧
    rowIdsBelow (create_assigned_cost_basis_entry s t).costBasis
      (create_assigned_cost_basis_entry s t).nextId := by
  simp only [create_assigned_cost_basis_entry]
  by_cases hg : 0 < (s.costBasis.filter (fun e =>
      decide (e.tradeId = some t.id ∧ e.accountId = t.accountId ∧
        e.tickerId = t.tickerId) &&
      py_startswith e.description "ASSIGNED")).length
  · rw [if_pos hg]
    exact ⟨hok, hbps, hrow⟩
  · rw [if_neg hg]
    by_cases hput : (py_in "PUT" (py_upper t.tradeType) ||
        py_in "ROP" (py_upper t.tradeType)) = true
    · rw [if_pos hput]
      dsimp only
      refine ⟨?_, ?_, ?_⟩
      · refine ledgerSumOk_append _ _ hok ?_ rfl rfl
        intro x hx
        exact cbNewer_of_le_lt x _ (hord x hx)
          (hrow x (List.mem_of_mem_filter hx))
      · exact bpsOk_append_single _ _ hbps rfl
      · refine rowIdsBelow_append_single _ _ _
          (rowIdsBelow_mono _ _ _ (Nat.le_succ _) hrow) (Nat.lt_succ_self _)
    · rw [if_neg hput]
      dsimp only
      refine ⟨?_, ?_, ?_⟩
      · refine ledgerSumOk_append _ _ hok ?_ rfl rfl
        intro x hx
        exact cbNewer_of_le_lt x _ (hord x hx)
          (hrow x (List.mem_of_mem_filter hx))
      · exact bpsOk_append_single _ _ hbps rfl
      · refine rowIdsBelow_append_single _ _ _
          (rowIdsBelow_mono _ _ _ (Nat.le_succ _) hrow) (Nat.lt_succ_self _)

theorem create_roll_diagonal_cost_basis_entry_invariants (s : DBState)
    (newTradeId origTradeId a : ℕ) (tk : String) (td : ℕ) (ticker : String)
    (newExp origExp : ℕ) (newStrike origStrike newCredit : ℚ) (ott : String)
    (nn : ℕ)
    (hok : LedgerSumOk s.costBasis) (hbps : BpsOk s.costBasis)
    (hrow : rowIdsBelow s.costBasis s.nextId)
    (hord : ∀ x ∈ scopeEntries s.costBasis a tk, x.transactionDate ≤ td) :
    LedgerSumOk (create_roll_diagonal_cost_basis_entry s newTradeId
      origTradeId a tk td ticker newExp origExp newStrike origStrike
      newCredit ott nn).costBasis ∧
    BpsOk (create_roll_diagonal_cost_basis_entry s newTradeId
      origTradeId a tk td ticker newExp origExp newStrike origStrike
      newCredit ott nn).costBasis ∧
    rowIdsBelow (create_roll_diagonal_cost_basis_entry s newTradeId
      origTradeId a tk td ticker newExp origExp newStrike origStrike
      newCredit ott nn).costBasis
      (create_roll_diagonal_cost_basis_entry s newTradeId origTradeId a tk
        td ticker newExp origExp newStrike origStrike newCredit ott
        nn).nextId := by
  simp only [create_roll_diagonal_cost_basis_entry]
  refine ⟨?_, ?_, ?_⟩
  · refine ledgerSumOk_append _ _ hok ?_ rfl rfl
    intro x hx
    exact cbNewer_of_le_lt x _ (hord x hx)
      (hrow x (List.mem_of_mem_filter hx))
  · exact bpsOk_append_single _ _ hbps rfl
  · refine rowIdsBelow_append_single _ _ _
      (rowIdsBelow_mono _ _ _ (Nat.le_succ _) hrow) (Nat.lt_succ_self _)

theorem add_trade_preserves_invariants (s : DBState) (tickerRaw : String)
    (td ed n : ℕ) (prem cp strike : ℚ) (tt : String) (acct : ℕ)
    (st : DBState) (newId : ℕ)
    (hok : LedgerSumOk s.costBasis) (hbps : BpsOk s.costBasis)
    (hrow : rowIdsBelow s.costBasis s.nextId)
    (hord : ∀ x ∈ scopeEntries s.costBasis acct (py_upper tickerRaw),
      x.transactionDate ≤ td)
    (heq : add_trade s tickerRaw td ed n prem cp strike tt acct =
      some (st, newId)) :
    LedgerSumOk st.costBasis ∧ BpsOk st.costBasis ∧
      rowIdsBelow st.costBasis st.nextId := by
  rw [add_trade] at heq
  rcases hfind2 : s.tradeTypes.find? (fun r => r.typeName = tt) with _ | ttRow
  · rw [hfind2] at heq
    exact Option.noConfusion heq
  · rw [hfind2] at heq
    dsimp only at heq
    by_cases hbs :
        ((if tt = "ROCT PUT" ∨ tt = "ROCT CALL" then
          py_upper tickerRaw ++ " " ++ tt else tt) = "BTO" ∨
        (if tt = "ROCT PUT" ∨ tt = "ROCT CALL" then
          py_upper tickerRaw ++ " " ++ tt else tt) = "STC")
    · rw [if_pos hbs] at heq
      simp only [Option.some.injEq, Prod.mk.injEq] at heq
      obtain ⟨h1, h2⟩ := heq
      subst h1
      refine ⟨?_, ?_, ?_⟩
      · dsimp only
        rw [map_link_eq_withCashFlowId]
        refine ledgerSumOk_map_withCashFlowId _ _
          (create_cost_basis_entry_invariants _ _ _ _ _ _ _ _ _
            ?_ ?_ ?_ ?_).1
        · exact hok
        · exact hbps
        · exact rowIdsBelow_mono _ _ _ (Nat.le_succ _) hrow
        · exact hord
      · dsimp only
        rw [map_link_eq_withCashFlowId]
        refine bpsOk_map_withCashFlowId _ _
          (create_cost_basis_entry_invariants _ _ _ _ _ _ _ _ _
            ?_ ?_ ?_ ?_).2.1
        · exact hok
        · exact hbps
        · exact rowIdsBelow_mono _ _ _ (Nat.le_succ _) hrow
        · exact hord
      · dsimp only
        rw [map_link_eq_withCashFlowId]
        refine rowIdsBelow_map_withCashFlowId _ _ _
          (rowIdsBelow_mono _ _ _ (Nat.le_succ _)
            (create_cost_basis_entry_invariants _ _ _ _ _ _ _ _ _
              ?_ ?_ ?_ ?_).2.2)
        · exact hok
        · exact hbps
        · exact rowIdsBelow_mono _ _ _ (Nat.le_succ _) hrow
        · exact hord
    · simp only [if_neg hbs] at heq
      simp only [Option.some.injEq, Prod.mk.injEq] at heq
      obtain ⟨h1, h2⟩ := heq
      subst h1
      refine ⟨?_, ?_, ?_⟩
      · dsimp only
        rw [map_link_eq_withCashFlowId]
        refine ledgerSumOk_map_withCashFlowId _ _
          (create_options_cost_basis_entry_invariants _ _ _ _ _ _ _ _ _ _
            ?_ ?_ ?_ ?_).1
        · exact hok
        · exact hbps
        · exact rowIdsBelow_mono _ _ _ (Nat.le_succ _) hrow
        · exact hord
      · dsimp only
        rw [map_link_eq_withCashFlowId]
        refine bpsOk_map_withCashFlowId _ _
          (create_options_cost_basis_entry_invariants _ _ _ _ _ _ _ _ _ _
            ?_ ?_ ?_ ?_).2.1
        · exact hok
        · exact hbps
        · exact rowIdsBelow_mono _ _ _ (Nat.le_succ _) hrow
        · exact hord
      · dsimp only
        rw [map_link_eq_withCashFlowId]
        refine rowIdsBelow_map_withCashFlowId _ _ _
          (rowIdsBelow_mono _ _ _ (Nat.le_succ _)
            (create_options_cost_basis_entry_invariants _ _ _ _ _ _ _ _ _ _
              ?_ ?_ ?_ ?_).2.2)
        · exact hok
        · exact hbps
        · exact rowIdsBelow_mono _ _ _ (Nat.le_succ _) hrow
        · exact hord

theorem assign_preserves_invariants (s : DBState) (today : ℕ) (t : Trade)
    (st : DBState) (r : Option ℕ)
    (hfind : s.trades.find? (fun x => x.id = t.id) = some t)
    (hstat : t.tradeStatus ≠ "assigned")
    (hok : LedgerSumOk s.costBasis) (hbps : BpsOk s.costBasis)
    (hrow : rowIdsBelow s.costBasis s.nextId)
    (hord : ∀ x ∈ scopeEntries s.costBasis t.accountId t.tickerId,
      x.transactionDate ≤ t.expirationDate)
    (heq : update_trade_status s today t.id "assigned" = some (st, r)) :
    LedgerSumOk st.costBasis ∧ BpsOk st.costBasis ∧
      rowIdsBelow st.costBasis st.nextId := by
  rw [update_trade_status, hfind] at heq
  dsimp only at heq
  rw [if_pos (⟨rfl, hstat⟩ :
    ("assigned" : String) = "assigned" ∧ t.tradeStatus ≠ "assigned")] at heq
  simp only [Option.some.injEq, Prod.mk.injEq] at heq
  obtain ⟨h1, h2⟩ := heq
  subst h1
  refine ⟨?_, ?_, ?_⟩
  · dsimp only
    rw [map_link_eq_withCashFlowId]
    refine ledgerSumOk_map_withCashFlowId _ _
      (create_assigned_cost_basis_entry_invariants _ _ ?_ ?_ ?_ ?_).1
    · exact hok
    · exact hbps
    · exact hrow
    · exact hord
  · dsimp only
    rw [map_link_eq_withCashFlowId]
    refine bpsOk_map_withCashFlowId _ _
      (create_assigned_cost_basis_entry_invariants _ _ ?_ ?_ ?_ ?_).2.1
    · exact hok
    · exact hbps
    · exact hrow
    · exact hord
  · dsimp only
    rw [map_link_eq_withCashFlowId]
    refine rowIdsBelow_map_withCashFlowId _ _ _
      (rowIdsBelow_mono _ _ _ (Nat.le_succ _)
        (create_assigned_cost_basis_entry_invariants _ _ ?_ ?_ ?_ ?_).2.2)
    · exact hok
    · exact hbps
    · exact hrow
    · exact hord

theorem roll_preserves_invariants (s : DBState) (today : ℕ) (t : Trade)
    (st : DBState) (r : Option ℕ)
    (hfind : s.trades.find? (fun x => x.id = t.id) = some t)
    (hopen : t.tradeStatus = "open")
    (hok : LedgerSumOk s.costBasis) (hbps : BpsOk s.costBasis)
    (hrow : rowIdsBelow s.costBasis s.nextId)
    (hord : ∀ x ∈ scopeEntries s.costBasis t.accountId t.tickerId,
      x.transactionDate ≤ today)
    (heq : update_trade_status s today t.id "roll" = some (st, r)) :
    LedgerSumOk st.costBasis ∧ BpsOk st.costBasis ∧
      rowIdsBelow st.costBasis st.nextId := by
  rw [update_trade_status, hfind] at heq
  dsimp only at heq
  rw [if_neg (fun h : ("roll" : String) = "assigned" ∧
    t.tradeStatus ≠ "assigned" => absurd h.1 (by decide))] at heq
  rw [if_neg (fun h : t.tradeStatus = "assigned" ∧
    ("roll" : String) ≠ "assigned" =>
      absurd (hopen ▸ h.1) (by decide))] at heq
  rw [if_pos (⟨rfl, hopen⟩ :
    ("roll" : String) = "roll" ∧ t.tradeStatus = "open")] at heq
  simp only [Option.some.injEq, Prod.mk.injEq] at heq
  obtain ⟨h1, h2⟩ := heq
  subst h1
  refine ⟨?_, ?_, ?_⟩
  · refine (create_roll_diagonal_cost_basis_entry_invariants
      _ _ _ _ _ _ _ _ _ _ _ _ _ _ ?_ ?_ ?_ ?_).1
    · exact hok
    · exact hbps
    · exact rowIdsBelow_mono _ _ _ (Nat.le_succ _) hrow
    · exact hord
  · refine (create_roll_diagonal_cost_basis_entry_invariants
      _ _ _ _ _ _ _ _ _ _ _ _ _ _ ?_ ?_ ?_ ?_).2.1
    · exact hok
    · exact hbps
    · exact rowIdsBelow_mono _ _ _ (Nat.le_succ _) hrow
    · exact hord
  · refine (create_roll_diagonal_cost_basis_entry_invariants
      _ _ _ _ _ _ _ _ _ _ _ _ _ _ ?_ ?_ ?_ ?_).2.2
    · exact hok
    · exact hbps
    · exact rowIdsBelow_mono _ _ _ (Nat.le_succ _) hrow
    · exact hord

theorem unassign_preserves_invariants (s : DBState) (today : ℕ) (t : Trade)
    (newStatus : String) (st : DBState) (r : Option ℕ)
    (hfind : s.trades.find? (fun x => x.id = t.id) = some t)
    (hstat : t.tradeStatus = "assigned") (hnew : newStatus ≠ "assigned")
    (hbps : BpsOk s.costBasis) (hrow : rowIdsBelow s.costBasis s.nextId)
    (heq : update_trade_status s today t.id newStatus = some (st, r)) :
    BpsOk st.costBasis ∧ rowIdsBelow st.costBasis st.nextId := by
  rw [update_trade_status, hfind] at heq
  dsimp only at heq
  rw [if_neg (fun h : newStatus = "assigned" ∧
    t.tradeStatus ≠ "assigned" => hnew h.1)] at heq
  rw [if_pos (⟨hstat, hnew⟩ :
    t.tradeStatus = "assigned" ∧ newStatus ≠ "assigned")] at heq
  simp only [Option.some.injEq, Prod.mk.injEq] at heq
  obtain ⟨h1, h2⟩ := heq
  subst h1
  exact ⟨bpsOk_filter _ _ hbps, rowIdsBelow_filter _ _ _ hrow⟩

theorem delete_trade_preserves_invariants (s : DBState) (tid : ℕ)
    (st : DBState)
    (hbps : BpsOk s.costBasis) (hrow : rowIdsBelow s.costBasis s.nextId)
    (heq : delete_trade s tid = some st) :
    BpsOk st.costBasis ∧ rowIdsBelow st.costBasis st.nextId := by
  rw [delete_trade] at heq
  rcases hfind : s.trades.find? (fun x => x.id = tid) with _ | u
  · rw [hfind] at heq
    exact Option.noConfusion heq
  · rw [hfind] at heq
    dsimp only at heq
    simp only [Option.some.injEq] at heq
    subst heq
    exact ⟨bpsOk_filter _ _ hbps, rowIdsBelow_filter _ _ _ hrow⟩

theorem not_ledgerSumOk_of_last (l : List CostBasisEntry) (a : ℕ)
    (tk : String) (e : CostBasisEntry)
    (hlast : lastCostBasis (scopeEntries l a tk) = some e)
    (hne : e.runningBasis ≠ sumAmount (scopeEntries l a tk)) :
    ¬ LedgerSumOk l :=
  fun h => hne (h a tk e hlast).2

/-- C1 counterexample: two options trades created for the same (account,
ticker) with trade dates out of order (day 5, then day 3) leave a ledger
whose (date, rowid)-maximal entry stores running basis -200 while the sum
of the scope's amount deltas is -400 — the prior-entry lookup reads the
newest entry by date, but the new entry is appended with an older date and
its delta is never folded into the totals of the entry that remains
`last`. -/
theorem ledger_running_total_counterexample :
    ∃ st1 id1 st2 id2,
      add_trade initState "XX" 5 30 1 2 0 10 "ROCT PUT" 1 =
        some (st1, id1) ∧
      add_trade st1 "XX" 3 30 1 2 0 10 "ROCT PUT" 1 = some (st2, id2) ∧
      ¬ LedgerSumOk st2.costBasis ∧
      (lastCostBasis (scopeEntries st2.costBasis 1 "XX")).map
        (fun e => (e.runningBasis, e.runningShares)) = some (-200, 0) ∧
      sumAmount (scopeEntries st2.costBasis 1 "XX") = -400 := by
  refine ⟨_, _, _, _, (by with_unfolding_all rfl),
    (by with_unfolding_all rfl), ?_, ?_, ?_⟩
  · exact not_ledgerSumOk_of_last _ 1 "XX" _ (by with_unfolding_all rfl)
      (by with_unfolding_all decide)
  · with_unfolding_all rfl
  · with_unfolding_all rfl

/-- C1 (amended): the running-total invariant (`LedgerSumOk`: in every
(account, ticker) scope the (date, rowid)-maximal entry's running
shares/basis equal the sums of the scope's signed deltas) together with
the per-entry basis-per-share rule (`BpsOk`) and counter freshness is
preserved by trade creation, by assignment and by roll, provided every
existing entry of the affected scope is dated no later than the new
entry (trade date, expiration date, and roll date respectively); the
basis-per-share rule and counter freshness are preserved unconditionally
by unassignment and by trade deletion, but those two operations remove
ledger rows without recomputing later running totals, so the running-total
half is not claimed for them — and without the date-order proviso creation
itself breaks it. -/
theorem ledger_running_totals (s : DBState)
    (hok : LedgerSumOk s.costBasis) (hbps : BpsOk s.costBasis)
    (hrow : rowIdsBelow s.costBasis s.nextId) :
    (∀ (tickerRaw : String) (td ed n : ℕ) (prem cp strike : ℚ)
        (tt : String) (acct : ℕ) (st : DBState) (newId : ℕ),
      (∀ x ∈ scopeEntries s.costBasis acct (py_upper tickerRaw),
        x.transactionDate ≤ td) →
      add_trade s tickerRaw td ed n prem cp strike tt acct =
        some (st, newId) →
      LedgerSumOk st.costBasis ∧ BpsOk st.costBasis ∧
        rowIdsBelow st.costBasis st.nextId) ∧
    (∀ (today : ℕ) (t : Trade) (st : DBState) (r : Option ℕ),
      s.trades.find? (fun x => x.id = t.id) = some t →
      t.tradeStatus ≠ "assigned" →
      (∀ x ∈ scopeEntries s.costBasis t.accountId t.tickerId,
        x.transactionDate ≤ t.expirationDate) →
      update_trade_status s today t.id "assigned" = some (st, r) →
      LedgerSumOk st.costBasis ∧ BpsOk st.costBasis ∧
        rowIdsBelow st.costBasis st.nextId) ∧
    (∀ (today : ℕ) (t : Trade) (st : DBState) (r : Option ℕ),
      s.trades.find? (fun x => x.id = t.id) = some t →
      t.tradeStatus = "open" →
      (∀ x ∈ scopeEntries s.costBasis t.accountId t.tickerId,
        x.transactionDate ≤ today) →
      update_trade_status s today t.id "roll" = some (st, r) →
      LedgerSumOk st.costBasis ∧ BpsOk st.costBasis ∧
        rowIdsBelow st.costBasis st.nextId) ∧
    (∀ (today : ℕ) (t : Trade) (newStatus : String) (st : DBState)
        (r : Option ℕ),
      s.trades.find? (fun x => x.id = t.id) = some t →
      t.tradeStatus = "assigned" → newStatus ≠ "assigned" →
      update_trade_status s today t.id newStatus = some (st, r) →
      BpsOk st.costBasis ∧ rowIdsBelow st.costBasis st.nextId) ∧
    (∀ (tid : ℕ) (st : DBState), delete_trade s tid = some st →
      BpsOk st.costBasis ∧ rowIdsBelow st.costBasis st.nextId) := by
  refine ⟨?_, ?_, ?_, ?_, ?_⟩
  · intro tickerRaw td ed n prem cp strike tt acct st newId hord heq
    exact add_trade_preserves_invariants s tickerRaw td ed n prem cp strike
      tt acct st newId hok hbps hrow hord heq
  · intro today t st r hfind hstat hord heq
    exact assign_preserves_invariants s today t st r hfind hstat hok hbps
      hrow hord heq
  · intro today t st r hfind hopen hord heq
    exact roll_preserves_invariants s today t st r hfind hopen hok hbps
      hrow hord heq
  · intro today t newStatus st r hfind hstat hnew heq
    exact unassign_preserves_invariants s today t newStatus st r hfind
      hstat hnew hbps hrow heq
  · intro tid st heq
    exact delete_trade_preserves_invariants s tid st hbps hrow heq

/-- Witness for C1 at the freshly initialised database: creating one
options trade preserves the running-total, basis-per-share and counter
invariants. -/
theorem ledger_running_totals_witness :
    ∃ st newId,
      add_trade initState "XX" 5 30 1 2 0 10 "ROCT PUT" 1 =
        some (st, newId) ∧
      LedgerSumOk st.costBasis ∧ BpsOk st.costBasis ∧
        rowIdsBelow st.costBasis st.nextId := by
  obtain ⟨st, newId, h⟩ :
      ∃ st newId, add_trade initState "XX" 5 30 1 2 0 10 "ROCT PUT" 1 =
        some (st, newId) := ⟨_, _, by with_unfolding_all rfl⟩
  exact ⟨st, newId, h,
    (ledger_running_totals initState
      (fun a tk e hh => Option.noConfusion hh)
      (fun e he => absurd he (List.not_mem_nil e))
      (fun e he => absurd he (List.not_mem_nil e))).1
    "XX" 5 30 1 2 0 10 "ROCT PUT" 1 st newId
    (fun x hx => absurd hx (List.not_mem_nil x)) h⟩

end StockTracker
